import Mathlib

/-!
Shallow embedding of the Orengine interactive 3D scene viewer
(picking / selection subsystem, geometry loader, instance transforms),
translated from the Rust sources.  Real arithmetic on `f32` is modelled
exactly over `ℚ`; `f32::INFINITY` appearing as a fold seed is modelled
with `WithTop ℚ` / `WithBot ℚ`.
-/

namespace Orengine

/-- 3-component vector (models `glam::Vec3` over exact rationals). -/
structure Vec3 where
  x : ℚ
  y : ℚ
  z : ℚ
deriving DecidableEq, Repr

namespace Vec3

def add (a b : Vec3) : Vec3 := ⟨a.x + b.x, a.y + b.y, a.z + b.z⟩

def sub (a b : Vec3) : Vec3 := ⟨a.x - b.x, a.y - b.y, a.z - b.z⟩

def smul (c : ℚ) (a : Vec3) : Vec3 := ⟨c * a.x, c * a.y, c * a.z⟩

/-- `glam::Vec3::dot`. -/
def dot (a b : Vec3) : ℚ := a.x * b.x + a.y * b.y + a.z * b.z

/-- `glam::Vec3::cross`. -/
def cross (a b : Vec3) : Vec3 :=
  ⟨a.y * b.z - a.z * b.y, a.z * b.x - a.x * b.z, a.x * b.y - a.y * b.x⟩

end Vec3

/-- Quaternion (models `glam::Quat`, stored `x, y, z, w`). -/
structure Quat where
  x : ℚ
  y : ℚ
  z : ℚ
  w : ℚ
deriving DecidableEq, Repr

namespace Quat

/-- `glam::Quat::conjugate`. -/
def conjugate (q : Quat) : Quat := ⟨-q.x, -q.y, -q.z, q.w⟩

/-- `glam::Quat::inverse`: for the normalized quaternions used by the engine
this is the conjugate. -/
def inverse (q : Quat) : Quat := q.conjugate

/-- Quaternion rotation of a vector, the `glam` product `Quat * Vec3`:
`v * (w*w - b.dot b) + b * (v.dot b * 2) + b.cross v * (w * 2)`
with `b` the vector part. -/
def rotate (q : Quat) (v : Vec3) : Vec3 :=
  let b : Vec3 := ⟨q.x, q.y, q.z⟩
  (Vec3.smul (q.w * q.w - b.dot b) v).add
    ((Vec3.smul (v.dot b * 2) b).add (Vec3.smul (q.w * 2) (b.cross v)))

end Quat

/-- `f32::EPSILON` = 2⁻²³, the tolerance used by `Ray::intersect_triangle`. -/
def f32EPSILON : ℚ := 1 / 2 ^ 23

/-- `Ray` from `src/camera.rs`: origin and direction. -/
structure Ray where
  origin : Vec3
  direction : Vec3
deriving DecidableEq, Repr

namespace Ray

/-- `Ray::intersect_aabb` (slab method) from `src/camera.rs`. -/
def intersect_aabb (r : Ray) (mn mx : Vec3) : Option ℚ :=
  let t1 := (mn.x - r.origin.x) / r.direction.x
  let t2 := (mx.x - r.origin.x) / r.direction.x
  let t3 := (mn.y - r.origin.y) / r.direction.y
  let t4 := (mx.y - r.origin.y) / r.direction.y
  let t5 := (mn.z - r.origin.z) / r.direction.z
  let t6 := (mx.z - r.origin.z) / r.direction.z
  let tmin := max (max (min t1 t2) (min t3 t4)) (min t5 t6)
  let tmax := min (min (max t1 t2) (max t3 t4)) (max t5 t6)
  if tmax < 0 ∨ tmin > tmax then none else some (max tmin 0)

/-- `Ray::intersect_triangle` (Möller–Trumbore) from `src/camera.rs`. -/
def intersect_triangle (r : Ray) (v0 v1 v2 : Vec3) : Option ℚ :=
  let edge1 := v1.sub v0
  let edge2 := v2.sub v0
  let h := r.direction.cross edge2
  let a := edge1.dot h
  if a > -f32EPSILON ∧ a < f32EPSILON then none
  else
    let f := 1 / a
    let s := r.origin.sub v0
    let u := f * s.dot h
    if u < 0 ∨ u > 1 then none
    else
      let q := s.cross edge1
      let v := f * r.direction.dot q
      if v < 0 ∨ u + v > 1 then none
      else
        let t := f * edge2.dot q
        if t > f32EPSILON then some t else none

/-- The largest per-axis slab entry distance of `intersect_aabb`. -/
def slabTmin (r : Ray) (mn mx : Vec3) : ℚ :=
  max (max (min ((mn.x - r.origin.x) / r.direction.x)
                ((mx.x - r.origin.x) / r.direction.x))
           (min ((mn.y - r.origin.y) / r.direction.y)
                ((mx.y - r.origin.y) / r.direction.y)))
      (min ((mn.z - r.origin.z) / r.direction.z)
           ((mx.z - r.origin.z) / r.direction.z))

/-- The smallest per-axis slab exit distance of `intersect_aabb`. -/
def slabTmax (r : Ray) (mn mx : Vec3) : ℚ :=
  min (min (max ((mn.x - r.origin.x) / r.direction.x)
                ((mx.x - r.origin.x) / r.direction.x))
           (max ((mn.y - r.origin.y) / r.direction.y)
                ((mx.y - r.origin.y) / r.direction.y)))
      (max ((mn.z - r.origin.z) / r.direction.z)
           ((mx.z - r.origin.z) / r.direction.z))

/-- The Möller–Trumbore determinant `a = edge1 · (direction × edge2)`. -/
def mtA (r : Ray) (v0 v1 v2 : Vec3) : ℚ :=
  (v1.sub v0).dot (r.direction.cross (v2.sub v0))

/-- The Möller–Trumbore barycentric coordinate `u`. -/
def mtU (r : Ray) (v0 v1 v2 : Vec3) : ℚ :=
  1 / mtA r v0 v1 v2 * ((r.origin.sub v0).dot (r.direction.cross (v2.sub v0)))

/-- The Möller–Trumbore barycentric coordinate `v`. -/
def mtV (r : Ray) (v0 v1 v2 : Vec3) : ℚ :=
  1 / mtA r v0 v1 v2 * (r.direction.dot ((r.origin.sub v0).cross (v1.sub v0)))

/-- The Möller–Trumbore hit parameter `t`. -/
def mtT (r : Ray) (v0 v1 v2 : Vec3) : ℚ :=
  1 / mtA r v0 v1 v2 * ((v2.sub v0).dot ((r.origin.sub v0).cross (v1.sub v0)))

end Ray

/-- 4-component vector (models `glam::Vec4`). -/
structure Vec4 where
  x : ℚ
  y : ℚ
  z : ℚ
  w : ℚ
deriving DecidableEq, Repr

/-- Column-major 4×4 matrix (models `glam::Mat4`). -/
structure Mat4 where
  x_axis : Vec4
  y_axis : Vec4
  z_axis : Vec4
  w_axis : Vec4
deriving DecidableEq, Repr

namespace Mat4

/-- `glam` matrix–vector product (column-major). -/
def mulVec4 (m : Mat4) (v : Vec4) : Vec4 :=
  ⟨m.x_axis.x * v.x + m.y_axis.x * v.y + m.z_axis.x * v.z + m.w_axis.x * v.w,
   m.x_axis.y * v.x + m.y_axis.y * v.y + m.z_axis.y * v.z + m.w_axis.y * v.w,
   m.x_axis.z * v.x + m.y_axis.z * v.y + m.z_axis.z * v.z + m.w_axis.z * v.w,
   m.x_axis.w * v.x + m.y_axis.w * v.y + m.z_axis.w * v.z + m.w_axis.w * v.w⟩

/-- `glam::Mat4::from_rotation_translation`: rotation-then-translation rigid
transform, rotation block built from the quaternion. -/
def from_rotation_translation (q : Quat) (t : Vec3) : Mat4 :=
  ⟨⟨1 - 2 * (q.y * q.y + q.z * q.z), 2 * (q.x * q.y + q.w * q.z),
      2 * (q.x * q.z - q.w * q.y), 0⟩,
   ⟨2 * (q.x * q.y - q.w * q.z), 1 - 2 * (q.x * q.x + q.z * q.z),
      2 * (q.y * q.z + q.w * q.x), 0⟩,
   ⟨2 * (q.x * q.z + q.w * q.y), 2 * (q.y * q.z - q.w * q.x),
      1 - 2 * (q.x * q.x + q.y * q.y), 0⟩,
   ⟨t.x, t.y, t.z, 1⟩⟩

end Mat4

/-- `Instance` from `src/instance.rs`: position + rotation. -/
structure Instance where
  position : Vec3
  rotation : Quat
deriving DecidableEq, Repr

/-- `InstanceRaw` from `src/instance.rs`: the 4×4 model matrix. -/
structure InstanceRaw where
  model : Mat4
deriving DecidableEq, Repr

/-- `Instance::to_raw` from `src/instance.rs`. -/
def Instance.to_raw (i : Instance) : InstanceRaw :=
  ⟨Mat4.from_rotation_translation i.rotation i.position⟩

/-! ## Geometry loader (`src/models.rs`) -/

/-- `Vertex` as constructed by `load_model` in `src/models.rs`
(position, color, UV, normal). -/
structure Vertex where
  position : Vec3
  color : Vec3
  tex_coords : ℚ × ℚ
  normal : Vec3
deriving DecidableEq, Repr

def dummyVertex : Vertex := ⟨⟨0, 0, 0⟩, ⟨0, 0, 0⟩, (0, 0), ⟨0, 0, 0⟩⟩

/-- `Material` from `src/models.rs`. -/
structure Material where
  name : String
  diffuse_texture : String
deriving DecidableEq, Repr

/-- `Mesh` from `src/models.rs`. -/
structure Mesh where
  name : String
  vertices : List Vertex
  indices : List ℕ
  material_id : ℕ
deriving DecidableEq, Repr

/-- `Aabb` from `src/models.rs`, with the `f32::INFINITY` /
`f32::NEG_INFINITY` fold seeds modelled by `⊤` / `⊥`. -/
structure AabbE where
  minx : WithTop ℚ
  miny : WithTop ℚ
  minz : WithTop ℚ
  maxx : WithBot ℚ
  maxy : WithBot ℚ
  maxz : WithBot ℚ
deriving DecidableEq, Repr

/-- `Model` from `src/models.rs`. -/
structure Model where
  meshes : List Mesh
  materials : List Material
  aabb : AabbE
deriving DecidableEq, Repr

/-- Input mesh data as produced by the OBJ parser (`tobj::Mesh`, with
`triangulate` and `single_index` options): flat position/texcoord/normal
arrays and an optional material id. -/
structure TobjMesh where
  positions : List ℚ
  texcoords : List ℚ
  normals : List ℚ
  indices : List ℕ
  material_id : Option ℕ
deriving DecidableEq, Repr

/-- `tobj::Model`: a named mesh. -/
structure TobjModel where
  name : String
  mesh : TobjMesh
deriving DecidableEq, Repr

/-- `tobj::Material` (the fields `load_model` reads). -/
structure TobjMaterial where
  name : String
  diffuse_texture : Option String
deriving DecidableEq, Repr

/-- `OrengineError` from `src/error.rs` (payloads of external error types
dropped). -/
inductive OrengineError where
  | generic (msg : String)
  | io
  | tobj
  | image
  | wgpuRequestDevice
  | wgpuCreateSurface
  | noGpuAdapter
  | mismatchedMaterials
deriving DecidableEq, Repr

/-- `if x < min_pos { min_pos = x }` over the `f32::INFINITY` seed. -/
def foldMin (m : WithTop ℚ) (x : ℚ) : WithTop ℚ :=
  if (x : WithTop ℚ) < m then (x : WithTop ℚ) else m

/-- `if x > max_pos { max_pos = x }` over the `f32::NEG_INFINITY` seed. -/
def foldMax (m : WithBot ℚ) (x : ℚ) : WithBot ℚ :=
  if (x : WithBot ℚ) > m then (x : WithBot ℚ) else m

/-- One step of the AABB fold in `load_model`: fold the three coordinates of
vertex `i` of the flat position array into the running bounds. -/
def aabbStep (st : AabbE) (positions : List ℚ) (i : ℕ) : AabbE :=
  let x := positions.getD (i * 3) 0
  let y := positions.getD (i * 3 + 1) 0
  let z := positions.getD (i * 3 + 2) 0
  ⟨foldMin st.minx x, foldMin st.miny y, foldMin st.minz z,
   foldMax st.maxx x, foldMax st.maxy y, foldMax st.maxz z⟩

/-- The per-mesh AABB fold of `load_model` (`for i in 0..positions.len()/3`). -/
def aabbFoldMesh (st : AabbE) (positions : List ℚ) : AabbE :=
  (List.range (positions.length / 3)).foldl (fun s i => aabbStep s positions i) st

/-- The whole-model AABB fold of `load_model`, over every sub-mesh. -/
def aabbFold (models : List TobjModel) : AabbE :=
  models.foldl (fun s m => aabbFoldMesh s m.mesh.positions) ⟨⊤, ⊤, ⊤, ⊥, ⊥, ⊥⟩

/-- Vertex `i` built by `load_model`: position from the flat array, white
color, V-flipped texture coordinates defaulting to `(0,0)`, normal
defaulting to `(0,1,0)`. -/
def buildVertex (positions texcoords normals : List ℚ) (i : ℕ) : Vertex :=
  let x := positions.getD (i * 3) 0
  let y := positions.getD (i * 3 + 1) 0
  let z := positions.getD (i * 3 + 2) 0
  let tc : ℚ × ℚ :=
    if texcoords.length > i * 2 then
      (texcoords.getD (i * 2) 0, 1 - texcoords.getD (i * 2 + 1) 0)
    else (0, 0)
  let nrm : Vec3 :=
    if normals.length > i * 3 then
      ⟨normals.getD (i * 3) 0, normals.getD (i * 3 + 1) 0,
        normals.getD (i * 3 + 2) 0⟩
    else ⟨0, 1, 0⟩
  ⟨⟨x, y, z⟩, ⟨1, 1, 1⟩, tc, nrm⟩

/-- The per-mesh vertex loop of `load_model`. -/
def buildVertices (m : TobjMesh) : List Vertex :=
  (List.range (m.positions.length / 3)).map
    (fun i => buildVertex m.positions m.texcoords m.normals i)

/-- The mesh conversion of `load_model`: `material_id` is
`mesh.material_id.unwrap_or(0)`. -/
def convertMesh (m : TobjModel) : Mesh :=
  ⟨m.name, buildVertices m.mesh, m.mesh.indices, m.mesh.material_id.getD 0⟩

/-- The material conversion of `load_model`
(`diffuse_texture.unwrap_or_default()`). -/
def convertMaterial (m : TobjMaterial) : Material :=
  ⟨m.name, m.diffuse_texture.getD ""⟩

/-- The pure conversion part of `load_model` (everything after the OBJ parse
succeeded): materials, meshes, and the global AABB fold. -/
def convertModel (models : List TobjModel) (materials : List TobjMaterial) :
    Model :=
  ⟨models.map convertMesh, materials.map convertMaterial, aabbFold models⟩

/-- `load_model` from `src/models.rs`, with the external OBJ parse
(`tobj::load_obj`, which yields the model list and a nested material
result) passed in as input: parse errors propagate via `?` as
`OrengineError::Tobj`; after a successful parse the conversion is total. -/
def load_model
    (parse : Except Unit (List TobjModel × Except Unit (List TobjMaterial))) :
    Except OrengineError Model :=
  match parse with
  | .error _ => .error .tobj
  | .ok (models, mres) =>
    match mres with
    | .error _ => .error .tobj
    | .ok mats => .ok (convertModel models mats)

/-! ## Picking and selection (`src/state.rs`) -/

/-- Split an index list into consecutive triples: `indices.chunks(3)` with the
`if let [i0, i1, i2]` pattern that drops a trailing partial chunk. -/
def triples : List ℕ → List (ℕ × ℕ × ℕ)
  | i0 :: i1 :: i2 :: rest => (i0, i1, i2) :: triples rest
  | _ => []

/-- One triangle test of the narrow phase in `get_hit_instance`:
`if tri_dist < closest_dist { closest_dist = tri_dist; hit_instance = Some(i) }`.
The pair `(hit_instance, closest_dist)` is carried as an `Option`; `none`
stands for `(None, f32::INFINITY)`. -/
def tryTriangle (r : Ray) (v0 v1 v2 : Vec3) (i : ℕ) (best : Option (ℕ × ℚ)) :
    Option (ℕ × ℚ) :=
  match r.intersect_triangle v0 v1 v2 with
  | none => best
  | some t =>
    match best with
    | none => some (i, t)
    | some (j, c) => if t < c then some (i, t) else some (j, c)

/-- One triangle of the narrow phase: fetch the three vertex positions by
index and run the ray–triangle test against the carried best hit. -/
def triStep (r : Ray) (m : Mesh) (i : ℕ) (b : Option (ℕ × ℚ))
    (tri : ℕ × ℕ × ℕ) : Option (ℕ × ℚ) :=
  let v0 := (m.vertices.getD tri.1 dummyVertex).position
  let v1 := (m.vertices.getD tri.2.1 dummyVertex).position
  let v2 := (m.vertices.getD tri.2.2 dummyVertex).position
  tryTriangle r v0 v1 v2 i b

/-- The ray–triangle test of the narrow phase for one index triple of a
mesh. -/
def triTest (r : Ray) (m : Mesh) (tri : ℕ × ℕ × ℕ) : Option ℚ :=
  r.intersect_triangle
    (m.vertices.getD tri.1 dummyVertex).position
    (m.vertices.getD tri.2.1 dummyVertex).position
    (m.vertices.getD tri.2.2 dummyVertex).position

/-- The narrow phase of `get_hit_instance` over one mesh: iterate triangles
(index triples), fetching vertex positions by index. -/
def narrowMesh (r : Ray) (m : Mesh) (i : ℕ) (best : Option (ℕ × ℚ)) :
    Option (ℕ × ℚ) :=
  (triples m.indices).foldl (triStep r m i) best

/-- The narrow phase of `get_hit_instance` over all CPU meshes. -/
def narrowMeshes (r : Ray) (meshes : List Mesh) (i : ℕ)
    (best : Option (ℕ × ℚ)) : Option (ℕ × ℚ) :=
  meshes.foldl (fun b m => narrowMesh r m i b) best

/-- Transform the camera ray into the local space of an instance, as in
`get_hit_instance`: inverse rotation applied to `origin - position` and to
the direction. -/
def localRay (inst : Instance) (r : Ray) : Ray :=
  let to_local := inst.rotation.inverse
  ⟨to_local.rotate (r.origin.sub inst.position), to_local.rotate r.direction⟩

/-- `dist > closest_dist` against the carried best hit
(`closest_dist = f32::INFINITY` when no hit yet). -/
def distGtClosest (dist : ℚ) (best : Option (ℕ × ℚ)) : Bool :=
  match best with
  | none => false
  | some (_, c) => decide (dist > c)

/-- The body of the per-instance loop of `get_hit_instance`: broad-phase AABB
test with early-out skip, then the narrow phase. -/
def instStep (mn mx : Vec3) (meshes : List Mesh) (r : Ray)
    (best : Option (ℕ × ℚ)) (p : ℕ × Instance) : Option (ℕ × ℚ) :=
  let lr := localRay p.2 r
  match lr.intersect_aabb mn mx with
  | none => best
  | some dist =>
    if distGtClosest dist best then best
    else narrowMeshes lr meshes p.1 best

/-- `State::get_hit_instance` from `src/state.rs`: enumerate instances,
broad-phase AABB then narrow-phase triangles, returning the closest hit
instance index and distance. -/
def get_hit_instance (mn mx : Vec3) (meshes : List Mesh)
    (instances : List Instance) (r : Ray) : Option (ℕ × ℚ) :=
  instances.enum.foldl (instStep mn mx meshes r) none

/-- The exhaustive narrow-phase search the spec describes for
`get_hit_instance`: every triangle of every mesh of every instance is
tested, with no AABB broad phase; written from the words of the spec, for
the refinement comparison. -/
def exhaustiveHit (meshes : List Mesh) (instances : List Instance) (r : Ray) :
    Option (ℕ × ℚ) :=
  instances.enum.foldl
    (fun best p => narrowMeshes (localRay p.2 r) meshes p.1 best) none

/-- Some triangle of mesh `m` intersects ray `lr` at distance `t`. -/
def MeshHit (lr : Ray) (m : Mesh) (t : ℚ) : Prop :=
  ∃ tri ∈ triples m.indices, triTest lr m tri = some t

/-- The closest distance carried by the narrow-phase accumulator
(`f32::INFINITY` when no hit yet). -/
def closestOf : Option (ℕ × ℚ) → WithTop ℚ
  | none => ⊤
  | some p => (p.2 : WithTop ℚ)

/-- Some triangle of some mesh of the list intersects ray `lr` at
distance `t`. -/
def MeshesHit (lr : Ray) (ms : List Mesh) (t : ℚ) : Prop :=
  ∃ m ∈ ms, MeshHit lr m t

/-- A hit among an enumerated prefix of the instance list: some pair of the
prefix has index `j` and its local-space ray hits a triangle at
distance `t`. -/
def EnumHit (meshes : List Mesh) (r : Ray) (l : List (ℕ × Instance))
    (j : ℕ) (t : ℚ) : Prop :=
  ∃ p ∈ l, p.1 = j ∧ MeshesHit (localRay p.2 r) meshes t

/-- `(i, t)` is a narrow-phase hit: instance `i` exists and some triangle of
some mesh intersects the local-space ray at distance `t`. -/
def IsHit (meshes : List Mesh) (instances : List Instance)
    (r : Ray) (i : ℕ) (t : ℚ) : Prop :=
  ∃ inst, instances.get? i = some inst ∧
    MeshesHit (localRay inst r) meshes t

/-- The point at parametric distance `t` along a ray. -/
def Ray.pointAt (r : Ray) (t : ℚ) : Vec3 :=
  r.origin.add (Vec3.smul t r.direction)

/-- Componentwise containment of a point in the box `[mn, mx]`. -/
def InBox (mn mx p : Vec3) : Prop :=
  mn.x ≤ p.x ∧ p.x ≤ mx.x ∧ mn.y ≤ p.y ∧ p.y ≤ mx.y ∧ mn.z ≤ p.z ∧ p.z ≤ mx.z

/-- The hypotheses `State` maintains for the CPU meshes it ray-tests: every
vertex lies in the model AABB (the load-time invariant) and every index
addresses an existing vertex. -/
def MeshesEnclosed (mn mx : Vec3) (meshes : List Mesh) : Prop :=
  ∀ m ∈ meshes, (∀ v ∈ m.vertices, InBox mn mx v.position) ∧
    ∀ idx ∈ m.indices, idx < m.vertices.length

/-- All three direction components nonzero (the rays for which the `f32`
slab divisions are modelled exactly by rational division). -/
def DirNonzero (d : Vec3) : Prop := d.x ≠ 0 ∧ d.y ≠ 0 ∧ d.z ≠ 0

/-! ### Box selection and the selection state -/

/-- `egui::Pos2`. -/
structure Pos2 where
  x : ℚ
  y : ℚ
deriving DecidableEq, Repr

/-- `egui::Rect` (min/max corners). -/
structure Rect where
  min : Pos2
  max : Pos2
deriving DecidableEq, Repr

namespace Rect

def width (r : Rect) : ℚ := r.max.x - r.min.x

def height (r : Rect) : ℚ := r.max.y - r.min.y

/-- `egui::Rect::contains`: boundary-inclusive point containment. -/
def containsB (r : Rect) (p : Pos2) : Bool :=
  decide (r.min.x ≤ p.x) && decide (p.x ≤ r.max.x) &&
    decide (r.min.y ≤ p.y) && decide (p.y ≤ r.max.y)

end Rect

/-- The loop body of `State::perform_box_selection`: project one instance
position through the view-projection matrix, skip it when `clip.w ≤ 0`,
convert to screen pixels inside `image_rect`, and insert its index when
the drag rectangle contains the screen position. -/
def boxStep (view_proj : Mat4) (selection_rect image_rect : Rect)
    (sel : Finset ℕ) (p : ℕ × Instance) : Finset ℕ :=
  let pos := p.2.position
  let clip := view_proj.mulVec4 ⟨pos.x, pos.y, pos.z, 1⟩
  if clip.w ≤ 0 then sel
  else
    let ndcx := clip.x / clip.w
    let ndcy := clip.y / clip.w
    let screen_x := image_rect.min.x + (ndcx + 1) * (1 / 2) * image_rect.width
    let screen_y := image_rect.min.y + (1 - ndcy) * (1 / 2) * image_rect.height
    if selection_rect.containsB ⟨screen_x, screen_y⟩ then insert p.1 sel
    else sel

/-- `State::perform_box_selection` from `src/state.rs`: clear the previous
selection (`prev` is discarded), then run `boxStep` over the enumerated
instance list. -/
def perform_box_selection (prev : Finset ℕ) (instances : List Instance)
    (view_proj : Mat4) (selection_rect image_rect : Rect) : Finset ℕ :=
  let _ := prev
  instances.enum.foldl (boxStep view_proj selection_rect image_rect)
    (∅ : Finset ℕ)

/-- The selection condition of `perform_box_selection` as a predicate on one
instance: the projected position has `clip.w > 0` and the derived screen
pixel lies inside the drag rectangle. -/
def boxCond (view_proj : Mat4) (selection_rect image_rect : Rect)
    (inst : Instance) : Prop :=
  let pos := inst.position
  let clip := view_proj.mulVec4 ⟨pos.x, pos.y, pos.z, 1⟩
  0 < clip.w ∧
    selection_rect.containsB
      ⟨image_rect.min.x + (clip.x / clip.w + 1) * (1 / 2) * image_rect.width,
       image_rect.min.y +
         (1 - clip.y / clip.w) * (1 / 2) * image_rect.height⟩ = true

instance (view_proj : Mat4) (selection_rect image_rect : Rect)
    (inst : Instance) :
    Decidable (boxCond view_proj selection_rect image_rect inst) := by
  unfold boxCond
  infer_instance

/-- The selection-relevant state mutated by the pick branch of
`State::render`. -/
structure SelState where
  selected : Finset ℕ
  hovered : Option ℕ
deriving DecidableEq

/-- The hover/click pick branch of `State::render` (`src/state.rs`): on a hit
set the hovered instance and, if the click fired, clear the selection and
insert the hit index; on no hit clear the hover and, if the click fired,
clear the selection. -/
def applyPick (st : SelState) (click_request : Bool) (hit : Option (ℕ × ℚ)) :
    SelState :=
  match hit with
  | some (idx, _) =>
    ⟨if click_request then insert idx (∅ : Finset ℕ) else st.selected,
     some idx⟩
  | none =>
    ⟨if click_request then (∅ : Finset ℕ) else st.selected, none⟩

/-- Index validity of the selection state with respect to an instance count:
every selected index and any hovered index names an existing instance. -/
def SelValid (n : ℕ) (st : SelState) : Prop :=
  (∀ j ∈ st.selected, j < n) ∧ ∀ j, st.hovered = some j → j < n

/-- `a` is at least as wide a bounding box as `b` (componentwise wider
bounds). -/
def AabbE.wider (a b : AabbE) : Prop :=
  a.minx ≤ b.minx ∧ a.miny ≤ b.miny ∧ a.minz ≤ b.minz ∧
    b.maxx ≤ a.maxx ∧ b.maxy ≤ a.maxy ∧ b.maxz ≤ a.maxz

/-- The point with flat-array index `i` is inside the extended bounding
box. -/
def AabbE.containsPos (a : AabbE) (positions : List ℚ) (i : ℕ) : Prop :=
  a.minx ≤ (positions.getD (i * 3) 0 : ℚ) ∧
    a.miny ≤ (positions.getD (i * 3 + 1) 0 : ℚ) ∧
    a.minz ≤ (positions.getD (i * 3 + 2) 0 : ℚ) ∧
    ((positions.getD (i * 3) 0 : ℚ) : WithBot ℚ) ≤ a.maxx ∧
    ((positions.getD (i * 3 + 1) 0 : ℚ) : WithBot ℚ) ≤ a.maxy ∧
    ((positions.getD (i * 3 + 2) 0 : ℚ) : WithBot ℚ) ≤ a.maxz

/-! ## Theorems -/

/-- C8: single-pick selection is idempotent: a click-pick that hits instance
`i` always leaves `{i}` as the selection — in particular re-clicking the
already-sole-selected instance keeps it selected (clear-then-reselect,
never a toggle-off) — and a click-pick with no hit empties the
selection. -/
theorem single_pick_idempotent (i : ℕ) (d : ℚ) (st : SelState) :
    (applyPick st true (some (i, d))).selected = {i} ∧
      applyPick ⟨{i}, some i⟩ true (some (i, d)) = ⟨{i}, some i⟩ ∧
      (applyPick st true none).selected = ∅ := by
  refine ⟨?_, ?_, ?_⟩ <;> simp [applyPick]

/-- C9: the 4×4 matrix built by `Instance::to_raw` is the
rotation-then-translation rigid transform: applied to the homogeneous
point `(x, 1)` it yields exactly the quaternion rotation of `x` plus the
instance position (for the normalized rotation quaternions the engine
uses). -/
theorem to_raw_rigid_transform (inst : Instance) (v : Vec3)
    (hunit : inst.rotation.x ^ 2 + inst.rotation.y ^ 2 +
      inst.rotation.z ^ 2 + inst.rotation.w ^ 2 = 1) :
    inst.to_raw.model.mulVec4 ⟨v.x, v.y, v.z, 1⟩ =
      ⟨((inst.rotation.rotate v).add inst.position).x,
       ((inst.rotation.rotate v).add inst.position).y,
       ((inst.rotation.rotate v).add inst.position).z, 1⟩ := by
  obtain ⟨p, q⟩ := inst
  have h : q.x ^ 2 + q.y ^ 2 + q.z ^ 2 + q.w ^ 2 = 1 := by simpa using hunit
  simp only [Instance.to_raw, Mat4.from_rotation_translation, Mat4.mulVec4,
    Quat.rotate, Vec3.add, Vec3.smul, Vec3.dot, Vec3.cross, Vec4.mk.injEq]
  refine ⟨?_, ?_, ?_, by ring⟩
  · linear_combination (-1 : ℚ) * v.x * h
  · linear_combination (-1 : ℚ) * v.y * h
  · linear_combination (-1 : ℚ) * v.z * h

/-- C9 witness: the transform equation at the identity rotation, position
`(1, 2, 3)` and reference point `(4, 5, 6)`. -/
theorem to_raw_rigid_transform_witness :
    (Instance.mk ⟨1, 2, 3⟩ ⟨0, 0, 0, 1⟩).to_raw.model.mulVec4 ⟨4, 5, 6, 1⟩ =
      ⟨(((Quat.mk 0 0 0 1).rotate ⟨4, 5, 6⟩).add ⟨1, 2, 3⟩).x,
       (((Quat.mk 0 0 0 1).rotate ⟨4, 5, 6⟩).add ⟨1, 2, 3⟩).y,
       (((Quat.mk 0 0 0 1).rotate ⟨4, 5, 6⟩).add ⟨1, 2, 3⟩).z, 1⟩ :=
  to_raw_rigid_transform ⟨⟨1, 2, 3⟩, ⟨0, 0, 0, 1⟩⟩ ⟨4, 5, 6⟩ (by norm_num)

/-- `intersect_aabb` written with the named slab quantities. -/
theorem intersect_aabb_eq (r : Ray) (mn mx : Vec3) :
    r.intersect_aabb mn mx =
      if r.slabTmax mn mx < 0 ∨ r.slabTmin mn mx > r.slabTmax mn mx then none
      else some (max (r.slabTmin mn mx) 0) := rfl

/-- `intersect_triangle` written with the named Möller–Trumbore
quantities. -/
theorem intersect_triangle_eq (r : Ray) (v0 v1 v2 : Vec3) :
    r.intersect_triangle v0 v1 v2 =
      if r.mtA v0 v1 v2 > -f32EPSILON ∧ r.mtA v0 v1 v2 < f32EPSILON then none
      else if r.mtU v0 v1 v2 < 0 ∨ r.mtU v0 v1 v2 > 1 then none
      else if r.mtV v0 v1 v2 < 0 ∨ r.mtU v0 v1 v2 + r.mtV v0 v1 v2 > 1 then
        none
      else if r.mtT v0 v1 v2 > f32EPSILON then some (r.mtT v0 v1 v2)
      else none := rfl

/-- C2: `intersect_aabb` implements the slab method: it returns `some d` iff
the largest per-axis entry `tmin` is at most the smallest per-axis exit
`tmax` and `tmax ≥ 0`, with `d` the entry distance clamped below at zero;
a ray aimed at the unit cube from outside returns the distance to the
near face, and a ray pointing away returns `none`. -/
theorem intersect_aabb_slab (r : Ray) (mn mx : Vec3) :
    (∀ d',
      r.intersect_aabb mn mx = some d' ↔
        r.slabTmin mn mx ≤ r.slabTmax mn mx ∧ 0 ≤ r.slabTmax mn mx ∧
          d' = max (r.slabTmin mn mx) 0) ∧
      (Ray.mk ⟨2, 2, 2⟩ ⟨-1, -1, -1⟩).intersect_aabb
          ⟨-(1/2), -(1/2), -(1/2)⟩ ⟨1/2, 1/2, 1/2⟩ = some (3/2) ∧
      (Ray.mk ⟨2, 2, 2⟩ ⟨1, 1, 1⟩).intersect_aabb
          ⟨-(1/2), -(1/2), -(1/2)⟩ ⟨1/2, 1/2, 1/2⟩ = none := by
  refine ⟨?_, ?_, ?_⟩
  · intro d'
    rw [intersect_aabb_eq]
    split_ifs with h
    · simp only [false_iff]
      rintro ⟨h1, h2, h3⟩
      rcases h with h | h <;> linarith
    · push_neg at h
      simp only [Option.some.injEq]
      constructor
      · rintro rfl
        exact ⟨h.2, h.1, rfl⟩
      · rintro ⟨h1, h2, rfl⟩
        rfl
  · rw [intersect_aabb_eq]
    norm_num [Ray.slabTmin, Ray.slabTmax, min_def, max_def]
  · rw [intersect_aabb_eq]
    norm_num [Ray.slabTmin, Ray.slabTmax, min_def, max_def]

/-- C3: `intersect_triangle` implements Möller–Trumbore: it returns `some t`
exactly when the determinant is not within `f32::EPSILON` of zero, the
barycentric coordinates satisfy `0 ≤ u ≤ 1`, `0 ≤ v`, `u + v ≤ 1`, and
the hit parameter exceeds `f32::EPSILON` (hence is positive); a ray whose
direction makes the determinant vanish is rejected regardless of origin;
a ray through the interior of a triangle hits it. -/
theorem intersect_triangle_moller_trumbore (r : Ray) (v0 v1 v2 : Vec3) :
    (∀ t',
      r.intersect_triangle v0 v1 v2 = some t' ↔
        ¬(r.mtA v0 v1 v2 > -f32EPSILON ∧ r.mtA v0 v1 v2 < f32EPSILON) ∧
          0 ≤ r.mtU v0 v1 v2 ∧ r.mtU v0 v1 v2 ≤ 1 ∧ 0 ≤ r.mtV v0 v1 v2 ∧
          r.mtU v0 v1 v2 + r.mtV v0 v1 v2 ≤ 1 ∧
          f32EPSILON < r.mtT v0 v1 v2 ∧ t' = r.mtT v0 v1 v2) ∧
      (∀ t', r.intersect_triangle v0 v1 v2 = some t' → 0 < t') ∧
      ((r.mtA v0 v1 v2 > -f32EPSILON ∧ r.mtA v0 v1 v2 < f32EPSILON) →
        ∀ o : Vec3,
          (Ray.mk o r.direction).intersect_triangle v0 v1 v2 = none) ∧
      (Ray.mk ⟨1/5, 1/5, 1⟩ ⟨0, 0, -1⟩).intersect_triangle
          ⟨0, 0, 0⟩ ⟨1, 0, 0⟩ ⟨0, 1, 0⟩ = some 1 := by
  have heps : (0 : ℚ) < f32EPSILON := by norm_num [f32EPSILON]
  have main : ∀ t',
      r.intersect_triangle v0 v1 v2 = some t' ↔
        ¬(r.mtA v0 v1 v2 > -f32EPSILON ∧ r.mtA v0 v1 v2 < f32EPSILON) ∧
          0 ≤ r.mtU v0 v1 v2 ∧ r.mtU v0 v1 v2 ≤ 1 ∧ 0 ≤ r.mtV v0 v1 v2 ∧
          r.mtU v0 v1 v2 + r.mtV v0 v1 v2 ≤ 1 ∧
          f32EPSILON < r.mtT v0 v1 v2 ∧ t' = r.mtT v0 v1 v2 := by
    intro t'
    rw [intersect_triangle_eq]
    split_ifs with h1 h2 h3 h4
    · simp only [false_iff]
      rintro ⟨hA, _⟩
      exact hA h1
    · simp only [false_iff]
      rintro ⟨_, hu0, hu1, _⟩
      rcases h2 with h | h <;> linarith
    · simp only [false_iff]
      rintro ⟨_, _, _, hv0, huv, _⟩
      rcases h3 with h | h <;> linarith
    · simp only [Option.some.injEq]
      constructor
      · rintro rfl
        push_neg at h2 h3
        exact ⟨h1, h2.1, h2.2, h3.1, h3.2, h4, rfl⟩
      · rintro ⟨_, _, _, _, _, _, rfl⟩
        rfl
    · simp only [false_iff]
      rintro ⟨_, _, _, _, _, ht, rfl⟩
      exact h4 ht
  refine ⟨main, ?_, ?_, ?_⟩
  · intro t' hsome
    obtain ⟨_, _, _, _, _, ht, rfl⟩ := (main t').mp hsome
    linarith
  · intro hpar o
    rw [intersect_triangle_eq]
    rw [if_pos]
    exact hpar
  · rw [intersect_triangle_eq]
    norm_num [Ray.mtA, Ray.mtU, Ray.mtV, Ray.mtT, Vec3.sub, Vec3.dot,
      Vec3.cross, f32EPSILON]

/-- C3 witness: a ray parallel to the plane of the triangle
`(0,0,0), (1,0,0), (0,1,0)` is rejected, instantiated at origin
`(5, 7, 9)`. -/
theorem intersect_triangle_moller_trumbore_witness :
    (Ray.mk ⟨5, 7, 9⟩ ⟨1, 0, 0⟩).intersect_triangle
        ⟨0, 0, 0⟩ ⟨1, 0, 0⟩ ⟨0, 1, 0⟩ = none :=
  (intersect_triangle_moller_trumbore (Ray.mk ⟨5, 7, 9⟩ ⟨1, 0, 0⟩)
      ⟨0, 0, 0⟩ ⟨1, 0, 0⟩ ⟨0, 1, 0⟩).2.2.1
    (by norm_num [Ray.mtA, Vec3.sub, Vec3.dot, Vec3.cross, f32EPSILON])
    ⟨5, 7, 9⟩

/-- Membership in the `boxStep` fold: an index is collected exactly when it
was already collected or some enumerated pair satisfies the selection
condition. -/
theorem boxStep_foldl_mem (vp : Mat4) (sr ir : Rect)
    (l : List (ℕ × Instance)) (s : Finset ℕ) (i : ℕ) :
    i ∈ l.foldl (boxStep vp sr ir) s ↔
      i ∈ s ∨ ∃ p ∈ l, p.1 = i ∧ boxCond vp sr ir p.2 := by
  induction l generalizing s with
  | nil => simp
  | cons p tl ih =>
    rw [List.foldl_cons, ih]
    have hstep : i ∈ boxStep vp sr ir s p ↔
        i ∈ s ∨ (p.1 = i ∧ boxCond vp sr ir p.2) := by
      unfold boxStep boxCond
      dsimp only
      split_ifs with hw hc
      · simp only [iff_self_or]
        rintro ⟨rfl, hpos, _⟩
        linarith
      · simp only [Finset.mem_insert]
        constructor
        · rintro (rfl | hs)
          · exact Or.inr ⟨rfl, by constructor <;> [linarith; exact hc]⟩
          · exact Or.inl hs
        · rintro (hs | ⟨rfl, _⟩)
          · exact Or.inr hs
          · exact Or.inl rfl
      · simp only [iff_self_or]
        rintro ⟨rfl, _, hcont⟩
        exact absurd hcont hc
    rw [hstep]
    constructor
    · rintro ((hs | hp) | htl)
      · exact Or.inl hs
      · exact Or.inr ⟨p, List.mem_cons_self p tl, hp⟩
      · obtain ⟨q, hq, hqi⟩ := htl
        exact Or.inr ⟨q, List.mem_cons_of_mem p hq, hqi⟩
    · rintro (hs | ⟨q, hq, hqi⟩)
      · exact Or.inl (Or.inl hs)
      · rcases List.mem_cons.mp hq with rfl | hq
        · exact Or.inl (Or.inr hqi)
        · exact Or.inr ⟨q, hq, hqi⟩

/-- C4: `perform_box_selection` first clears the previous selection (the
result does not depend on it) and selects exactly the indices of existing
instances whose projected position has `clip.w > 0` and whose screen
pixel lies inside the drag rectangle; rectangle containment is
boundary-inclusive. -/
theorem perform_box_selection_correct (prev : Finset ℕ)
    (instances : List Instance) (vp : Mat4) (sr ir : Rect) :
    (∀ i, i ∈ perform_box_selection prev instances vp sr ir ↔
      ∃ inst, instances.get? i = some inst ∧ boxCond vp sr ir inst) ∧
      (∀ (rc : Rect) (p : Pos2),
        rc.containsB p = true ↔
          rc.min.x ≤ p.x ∧ p.x ≤ rc.max.x ∧ rc.min.y ≤ p.y ∧ p.y ≤ rc.max.y) := by
  constructor
  · intro i
    unfold perform_box_selection
    rw [boxStep_foldl_mem]
    simp only [Finset.not_mem_empty, false_or]
    constructor
    · rintro ⟨p, hp, rfl, hc⟩
      have := List.mk_mem_enum_iff_getElem?.mp (by exact hp)
      exact ⟨p.2, by simpa [List.get?_eq_getElem?] using this, hc⟩
    · rintro ⟨inst, hget, hc⟩
      refine ⟨(i, inst), ?_, rfl, hc⟩
      exact List.mk_mem_enum_iff_getElem?.mpr
        (by simpa [List.get?_eq_getElem?] using hget)
  · intro rc p
    unfold Rect.containsB
    simp [and_assoc]

theorem foldMin_le_self (m : WithTop ℚ) (x : ℚ) : foldMin m x ≤ m := by
  unfold foldMin
  split_ifs with h
  · exact le_of_lt h
  · exact le_refl m

theorem foldMin_le_val (m : WithTop ℚ) (x : ℚ) :
    foldMin m x ≤ (x : WithTop ℚ) := by
  unfold foldMin
  split_ifs with h
  · exact le_refl _
  · exact le_of_not_lt h

theorem foldMax_ge_self (m : WithBot ℚ) (x : ℚ) : m ≤ foldMax m x := by
  unfold foldMax
  split_ifs with h
  · exact le_of_lt h
  · exact le_refl m

theorem foldMax_ge_val (m : WithBot ℚ) (x : ℚ) :
    (x : WithBot ℚ) ≤ foldMax m x := by
  unfold foldMax
  split_ifs with h
  · exact le_refl _
  · exact le_of_not_lt h

theorem AabbE.wider_refl (a : AabbE) : a.wider a :=
  ⟨le_refl _, le_refl _, le_refl _, le_refl _, le_refl _, le_refl _⟩

theorem AabbE.wider_trans {a b c : AabbE} (h1 : a.wider b) (h2 : b.wider c) :
    a.wider c :=
  ⟨h1.1.trans h2.1, h1.2.1.trans h2.2.1, h1.2.2.1.trans h2.2.2.1,
   h2.2.2.2.1.trans h1.2.2.2.1, h2.2.2.2.2.1.trans h1.2.2.2.2.1,
   h2.2.2.2.2.2.trans h1.2.2.2.2.2⟩

theorem aabbStep_wider (st : AabbE) (ps : List ℚ) (i : ℕ) :
    (aabbStep st ps i).wider st :=
  ⟨foldMin_le_self _ _, foldMin_le_self _ _, foldMin_le_self _ _,
   foldMax_ge_self _ _, foldMax_ge_self _ _, foldMax_ge_self _ _⟩

theorem aabbStep_containsPos (st : AabbE) (ps : List ℚ) (i : ℕ) :
    (aabbStep st ps i).containsPos ps i :=
  ⟨foldMin_le_val _ _, foldMin_le_val _ _, foldMin_le_val _ _,
   foldMax_ge_val _ _, foldMax_ge_val _ _, foldMax_ge_val _ _⟩

theorem AabbE.wider_containsPos {a b : AabbE} {ps : List ℚ} {i : ℕ}
    (hw : a.wider b) (hc : b.containsPos ps i) : a.containsPos ps i :=
  ⟨hw.1.trans hc.1, hw.2.1.trans hc.2.1, hw.2.2.1.trans hc.2.2.1,
   hc.2.2.2.1.trans hw.2.2.2.1, hc.2.2.2.2.1.trans hw.2.2.2.2.1,
   hc.2.2.2.2.2.trans hw.2.2.2.2.2⟩

theorem aabbIdxFold_wider (ps : List ℚ) (l : List ℕ) :
    ∀ st : AabbE, (l.foldl (fun s i => aabbStep s ps i) st).wider st := by
  induction l with
  | nil => intro st; exact AabbE.wider_refl st
  | cons a tl ih =>
    intro st
    rw [List.foldl_cons]
    exact AabbE.wider_trans (ih (aabbStep st ps a)) (aabbStep_wider st ps a)

theorem aabbIdxFold_contains (ps : List ℚ) (l : List ℕ) (i : ℕ)
    (hi : i ∈ l) :
    ∀ st : AabbE, (l.foldl (fun s j => aabbStep s ps j) st).containsPos ps i := by
  induction l with
  | nil => cases hi
  | cons a tl ih =>
    intro st
    rw [List.foldl_cons]
    rcases List.mem_cons.mp hi with rfl | hi
    · exact AabbE.wider_containsPos (aabbIdxFold_wider ps tl (aabbStep st ps i))
        (aabbStep_containsPos st ps i)
    · exact ih hi (aabbStep st ps a)

theorem aabbFoldMesh_wider (st : AabbE) (ps : List ℚ) :
    (aabbFoldMesh st ps).wider st :=
  aabbIdxFold_wider ps (List.range (ps.length / 3)) st

theorem modelFold_wider (models : List TobjModel) :
    ∀ st : AabbE,
      (models.foldl (fun s m => aabbFoldMesh s m.mesh.positions) st).wider st := by
  induction models with
  | nil => intro st; exact AabbE.wider_refl st
  | cons tm tl ih =>
    intro st
    rw [List.foldl_cons]
    exact AabbE.wider_trans (ih (aabbFoldMesh st tm.mesh.positions))
      (aabbFoldMesh_wider st tm.mesh.positions)

theorem modelFold_contains (models : List TobjModel) (tm : TobjModel)
    (htm : tm ∈ models) (i : ℕ) (hi : i < tm.mesh.positions.length / 3) :
    ∀ st : AabbE,
      (models.foldl (fun s m => aabbFoldMesh s m.mesh.positions) st).containsPos
        tm.mesh.positions i := by
  induction models with
  | nil => cases htm
  | cons hd tl ih =>
    intro st
    rw [List.foldl_cons]
    rcases List.mem_cons.mp htm with rfl | htm
    · exact AabbE.wider_containsPos
        (modelFold_wider tl (aabbFoldMesh st tm.mesh.positions))
        (aabbIdxFold_contains tm.mesh.positions _ i (List.mem_range.mpr hi) st)
    · exact ih htm (aabbFoldMesh st hd.mesh.positions)

/-- C5: the AABB computed by `load_model` encloses every vertex position of
every mesh of the returned model, componentwise. -/
theorem load_model_aabb_encloses
    (parse : Except Unit (List TobjModel × Except Unit (List TobjMaterial)))
    (model : Model) (h : load_model parse = Except.ok model) :
    ∀ mesh ∈ model.meshes, ∀ vert ∈ mesh.vertices,
      model.aabb.minx ≤ (vert.position.x : WithTop ℚ) ∧
        model.aabb.miny ≤ (vert.position.y : WithTop ℚ) ∧
        model.aabb.minz ≤ (vert.position.z : WithTop ℚ) ∧
        (vert.position.x : WithBot ℚ) ≤ model.aabb.maxx ∧
        (vert.position.y : WithBot ℚ) ≤ model.aabb.maxy ∧
        (vert.position.z : WithBot ℚ) ≤ model.aabb.maxz := by
  obtain ⟨models, mats, rfl⟩ :
      ∃ models mats, model = convertModel models mats := by
    rcases parse with e | ⟨models, mres⟩
    · cases h
    · rcases mres with e | mats
      · cases h
      · exact ⟨models, mats, by simpa [load_model] using h.symm⟩
  intro mesh hmesh vert hvert
  obtain ⟨tm, htm, rfl⟩ := List.mem_map.mp hmesh
  have hv : vert ∈ (List.range (tm.mesh.positions.length / 3)).map
      (fun i => buildVertex tm.mesh.positions tm.mesh.texcoords
        tm.mesh.normals i) := hvert
  obtain ⟨i, hi, rfl⟩ := List.mem_map.mp hv
  have hi3 : i < tm.mesh.positions.length / 3 := List.mem_range.mp hi
  have hcont := modelFold_contains models tm htm i hi3 ⟨⊤, ⊤, ⊤, ⊥, ⊥, ⊥⟩
  have haabb : (convertModel models mats).aabb =
      models.foldl (fun s m => aabbFoldMesh s m.mesh.positions)
        ⟨⊤, ⊤, ⊤, ⊥, ⊥, ⊥⟩ := rfl
  rw [haabb]
  exact hcont

/-- C5 witness: the enclosure at a concrete two-vertex model, for the second
vertex `(2, 5, 9)`. -/
theorem load_model_aabb_encloses_witness :
    (convertModel [⟨"", ⟨[0, 0, 0, 2, 5, 9], [], [], [], none⟩⟩] []).aabb.minx ≤
        ((buildVertex [0, 0, 0, 2, 5, 9] [] [] 1).position.x : WithTop ℚ) ∧
      (convertModel [⟨"", ⟨[0, 0, 0, 2, 5, 9], [], [], [], none⟩⟩] []).aabb.miny ≤
        ((buildVertex [0, 0, 0, 2, 5, 9] [] [] 1).position.y : WithTop ℚ) ∧
      (convertModel [⟨"", ⟨[0, 0, 0, 2, 5, 9], [], [], [], none⟩⟩] []).aabb.minz ≤
        ((buildVertex [0, 0, 0, 2, 5, 9] [] [] 1).position.z : WithTop ℚ) ∧
      ((buildVertex [0, 0, 0, 2, 5, 9] [] [] 1).position.x : WithBot ℚ) ≤
        (convertModel [⟨"", ⟨[0, 0, 0, 2, 5, 9], [], [], [], none⟩⟩] []).aabb.maxx ∧
      ((buildVertex [0, 0, 0, 2, 5, 9] [] [] 1).position.y : WithBot ℚ) ≤
        (convertModel [⟨"", ⟨[0, 0, 0, 2, 5, 9], [], [], [], none⟩⟩] []).aabb.maxy ∧
      ((buildVertex [0, 0, 0, 2, 5, 9] [] [] 1).position.z : WithBot ℚ) ≤
        (convertModel [⟨"", ⟨[0, 0, 0, 2, 5, 9], [], [], [], none⟩⟩] []).aabb.maxz :=
  load_model_aabb_encloses
    (Except.ok ([⟨"", ⟨[0, 0, 0, 2, 5, 9], [], [], [], none⟩⟩], Except.ok []))
    (convertModel [⟨"", ⟨[0, 0, 0, 2, 5, 9], [], [], [], none⟩⟩] []) rfl
    (convertMesh ⟨"", ⟨[0, 0, 0, 2, 5, 9], [], [], [], none⟩⟩)
    (by simp [convertModel])
    (buildVertex [0, 0, 0, 2, 5, 9] [] [] 1)
    (List.mem_map.mpr ⟨1, by simp, rfl⟩)

/-- C6 (loader part, evaluated): `load_model` flips the V texture coordinate
(`v' = 1 - v`), defaults missing texture coordinates to `(0, 0)`, and
defaults missing normals to `(0, 1, 0)`, with white color. -/
theorem load_model_vertex_attributes :
    buildVertices ⟨[0, 0, 0, 1, 0, 0], [1/4, 1/4], [], [], none⟩ =
      [⟨⟨0, 0, 0⟩, ⟨1, 1, 1⟩, (1/4, 3/4), ⟨0, 1, 0⟩⟩,
       ⟨⟨1, 0, 0⟩, ⟨1, 1, 1⟩, (0, 0), ⟨0, 1, 0⟩⟩] := by
  norm_num [buildVertices, buildVertex, List.range_succ]

/-- C7 counterexample: a parsed file whose only mesh references material
index 5 while the material list is empty still loads successfully —
`load_model` returns a `Model` (with the dangling index passed through)
rather than a typed load error. -/
theorem load_model_dangling_material_ok :
    load_model (Except.ok ([⟨"m", ⟨[], [], [], [], some 5⟩⟩], Except.ok [])) =
      Except.ok ⟨[⟨"m", [], [], 5⟩], [], ⟨⊤, ⊤, ⊤, ⊥, ⊥, ⊥⟩⟩ := by
  simp [load_model, convertModel, convertMesh, buildVertices, aabbFold,
    aabbFoldMesh]

/-- C7 (amended): `load_model` performs no material-consistency validation:
after a successful parse it always returns a `Model`, each mesh taking
`material_id.unwrap_or(0)` with no range check against the material
list. -/
theorem load_model_no_material_validation (models : List TobjModel)
    (mats : List TobjMaterial) :
    load_model (Except.ok (models, Except.ok mats)) =
        Except.ok (convertModel models mats) ∧
      (convertModel models mats).meshes = models.map convertMesh ∧
      (∀ tm : TobjModel,
        (convertMesh tm).material_id = tm.mesh.material_id.getD 0) ∧
      (convertModel models mats).materials = mats.map convertMaterial :=
  ⟨rfl, rfl, fun _ => rfl, rfl⟩

theorem tryTriangle_idx {n : ℕ} (r : Ray) (v0 v1 v2 : Vec3) (i : ℕ)
    (best : Option (ℕ × ℚ)) (hi : i < n)
    (hb : ∀ j c, best = some (j, c) → j < n) :
    ∀ j c, tryTriangle r v0 v1 v2 i best = some (j, c) → j < n := by
  intro j c hjc
  unfold tryTriangle at hjc
  rcases hmt : r.intersect_triangle v0 v1 v2 with _ | t <;> rw [hmt] at hjc
  · exact hb j c hjc
  · rcases best with _ | ⟨jj, cc⟩
    · simp only [Option.some.injEq, Prod.mk.injEq] at hjc
      obtain ⟨rfl, rfl⟩ := hjc
      exact hi
    · dsimp only at hjc
      split_ifs at hjc <;>
        simp only [Option.some.injEq, Prod.mk.injEq] at hjc <;>
        obtain ⟨rfl, rfl⟩ := hjc
      · exact hi
      · exact hb jj cc rfl

theorem narrowMesh_idx {n : ℕ} (r : Ray) (m : Mesh) (i : ℕ)
    (best : Option (ℕ × ℚ)) (hi : i < n)
    (hb : ∀ j c, best = some (j, c) → j < n) :
    ∀ j c, narrowMesh r m i best = some (j, c) → j < n := by
  unfold narrowMesh
  generalize triples m.indices = l
  induction l generalizing best with
  | nil => exact hb
  | cons tri tl ih =>
    rw [List.foldl_cons]
    exact ih _ (tryTriangle_idx r _ _ _ i best hi hb)

theorem narrowMeshes_idx {n : ℕ} (r : Ray) (ms : List Mesh) (i : ℕ)
    (best : Option (ℕ × ℚ)) (hi : i < n)
    (hb : ∀ j c, best = some (j, c) → j < n) :
    ∀ j c, narrowMeshes r ms i best = some (j, c) → j < n := by
  unfold narrowMeshes
  induction ms generalizing best with
  | nil => exact hb
  | cons m tl ih =>
    rw [List.foldl_cons]
    exact ih _ (narrowMesh_idx r m i best hi hb)

theorem instStep_cases (mn mx : Vec3) (meshes : List Mesh) (r : Ray)
    (best : Option (ℕ × ℚ)) (p : ℕ × Instance) :
    instStep mn mx meshes r best p = best ∨
      instStep mn mx meshes r best p =
        narrowMeshes (localRay p.2 r) meshes p.1 best := by
  unfold instStep
  dsimp only
  rcases (localRay p.2 r).intersect_aabb mn mx with _ | dist
  · exact Or.inl rfl
  · dsimp only
    split_ifs
    · exact Or.inl rfl
    · exact Or.inr rfl

theorem instStep_idx {n : ℕ} (mn mx : Vec3) (meshes : List Mesh) (r : Ray)
    (best : Option (ℕ × ℚ)) (p : ℕ × Instance) (hp : p.1 < n)
    (hb : ∀ j c, best = some (j, c) → j < n) :
    ∀ j c, instStep mn mx meshes r best p = some (j, c) → j < n := by
  intro j c hjc
  rcases instStep_cases mn mx meshes r best p with he | he <;> rw [he] at hjc
  · exact hb j c hjc
  · exact narrowMeshes_idx _ meshes p.1 best hp hb j c hjc

theorem get_hit_instance_idx (mn mx : Vec3) (meshes : List Mesh)
    (instances : List Instance) (r : Ray) :
    ∀ i d, get_hit_instance mn mx meshes instances r = some (i, d) →
      i < instances.length := by
  unfold get_hit_instance
  have h : ∀ (l : List (ℕ × Instance)) (best : Option (ℕ × ℚ)),
      (∀ p ∈ l, p.1 < instances.length) →
      (∀ j c, best = some (j, c) → j < instances.length) →
      ∀ j c, l.foldl (instStep mn mx meshes r) best = some (j, c) →
        j < instances.length := by
    intro l
    induction l with
    | nil => intro best _ hb; exact hb
    | cons p tl ih =>
      intro best hl hb
      rw [List.foldl_cons]
      refine ih _ (fun q hq => hl q (List.mem_cons_of_mem p hq)) ?_
      have hp : p.1 < instances.length := hl p (List.mem_cons_self p tl)
      exact instStep_idx mn mx meshes r best p hp hb
  intro i d
  refine h instances.enum none ?_ (fun j c hjc => nomatch hjc) i d
  intro p hp
  obtain ⟨hlt, -⟩ :=
    List.getElem?_eq_some.mp (List.mk_mem_enum_iff_getElem?.mp (by exact hp))
  exact hlt

/-- C10: selection-state index validity: `get_hit_instance` only returns
indices of existing instances, `perform_box_selection` only selects
indices of existing instances, and the hover/click pick branch of
`State::render` preserves index validity of the whole selection state. -/
theorem selection_indices_valid (mn mx : Vec3) (meshes : List Mesh)
    (instances : List Instance) (r : Ray) (prev : Finset ℕ) (vp : Mat4)
    (sr ir : Rect) (st : SelState) (click : Bool) :
    (∀ i d, get_hit_instance mn mx meshes instances r = some (i, d) →
      i < instances.length) ∧
      (∀ j ∈ perform_box_selection prev instances vp sr ir,
        j < instances.length) ∧
      (SelValid instances.length st →
        SelValid instances.length
          (applyPick st click (get_hit_instance mn mx meshes instances r))) := by
  refine ⟨get_hit_instance_idx mn mx meshes instances r, ?_, ?_⟩
  · intro j hj
    unfold perform_box_selection at hj
    rw [boxStep_foldl_mem] at hj
    rcases hj with hj | ⟨p, hp, rfl, -⟩
    · cases hj
    · obtain ⟨hlt, -⟩ :=
        List.getElem?_eq_some.mp (List.mk_mem_enum_iff_getElem?.mp (by exact hp))
      exact hlt
  · intro hst
    unfold SelValid at hst ⊢
    rcases hhit : get_hit_instance mn mx meshes instances r with _ | ⟨i, d⟩ <;>
      cases click
    · exact ⟨hst.1, fun j hj => nomatch hj⟩
    · exact ⟨fun j hj => absurd hj (Finset.not_mem_empty j),
        fun j hj => nomatch hj⟩
    · have hi : i < instances.length :=
        get_hit_instance_idx mn mx meshes instances r i d hhit
      exact ⟨hst.1, fun j hj => (Option.some.inj hj) ▸ hi⟩
    · have hi : i < instances.length :=
        get_hit_instance_idx mn mx meshes instances r i d hhit
      refine ⟨?_, fun j hj => (Option.some.inj hj) ▸ hi⟩
      intro j hj
      rcases Finset.mem_insert.mp hj with rfl | hj
      · exact hi
      · exact absurd hj (Finset.not_mem_empty j)

/-- C10 witness: validity preservation instantiated on an empty scene and an
initially valid state. -/
theorem selection_indices_valid_witness :
    SelValid ([] : List Instance).length
      (applyPick ⟨∅, none⟩ true
        (get_hit_instance ⟨0, 0, 0⟩ ⟨1, 1, 1⟩ []
          [] (Ray.mk ⟨0, 0, 0⟩ ⟨1, 1, 1⟩))) :=
  (selection_indices_valid ⟨0, 0, 0⟩ ⟨1, 1, 1⟩ [] [] (Ray.mk ⟨0, 0, 0⟩ ⟨1, 1, 1⟩)
      ∅ ⟨⟨0, 0, 0, 0⟩, ⟨0, 0, 0, 0⟩, ⟨0, 0, 0, 0⟩, ⟨0, 0, 0, 0⟩⟩
      ⟨⟨0, 0⟩, ⟨0, 0⟩⟩ ⟨⟨0, 0⟩, ⟨0, 0⟩⟩ ⟨∅, none⟩ true).2.2
    ⟨fun j hj => absurd hj (Finset.not_mem_empty j), fun j hj => nomatch hj⟩

/-! ### Broad-phase soundness: the slab test bounds every in-box ray point -/

theorem slab_axis (mnv mxv o d t : ℚ) (hd : d ≠ 0)
    (h1 : mnv ≤ o + t * d) (h2 : o + t * d ≤ mxv) :
    min ((mnv - o) / d) ((mxv - o) / d) ≤ t ∧
      t ≤ max ((mnv - o) / d) ((mxv - o) / d) := by
  rcases lt_or_gt_of_ne hd with hneg | hpos
  · constructor
    · refine le_trans (min_le_right _ _) ?_
      rw [div_le_iff_of_neg hneg]
      linarith
    · refine le_trans ?_ (le_max_left _ _)
      rw [le_div_iff_of_neg hneg]
      linarith
  · constructor
    · refine le_trans (min_le_left _ _) ?_
      rw [div_le_iff₀ hpos]
      linarith
    · refine le_trans ?_ (le_max_right _ _)
      rw [le_div_iff₀ hpos]
      linarith

theorem slab_bounds_of_inBox (r : Ray) (mn mx : Vec3) (t : ℚ)
    (hd : DirNonzero r.direction) (hin : InBox mn mx (r.pointAt t)) :
    r.slabTmin mn mx ≤ t ∧ t ≤ r.slabTmax mn mx := by
  obtain ⟨hdx, hdy, hdz⟩ := hd
  simp only [InBox, Ray.pointAt, Vec3.add, Vec3.smul] at hin
  obtain ⟨h1, h2, h3, h4, h5, h6⟩ := hin
  have hx := slab_axis mn.x mx.x r.origin.x r.direction.x t hdx
    (by linarith) (by linarith)
  have hy := slab_axis mn.y mx.y r.origin.y r.direction.y t hdy
    (by linarith) (by linarith)
  have hz := slab_axis mn.z mx.z r.origin.z r.direction.z t hdz
    (by linarith) (by linarith)
  unfold Ray.slabTmin Ray.slabTmax
  exact ⟨max_le (max_le hx.1 hy.1) hz.1, le_min (le_min hx.2 hy.2) hz.2⟩

/-- If the ray point at parameter `t ≥ 0` lies inside the box, the slab test
succeeds and returns an entry distance at most `t`. -/
theorem aabb_le_of_inBox (r : Ray) (mn mx : Vec3) (t : ℚ)
    (hd : DirNonzero r.direction) (ht : 0 ≤ t)
    (hin : InBox mn mx (r.pointAt t)) :
    ∃ dist, r.intersect_aabb mn mx = some dist ∧ dist ≤ t := by
  obtain ⟨hmin, hmax⟩ := slab_bounds_of_inBox r mn mx t hd hin
  rw [intersect_aabb_eq, if_neg]
  · exact ⟨_, rfl, max_le hmin ht⟩
  · push_neg
    exact ⟨not_lt.mp (by simp only [not_lt]; linarith), by linarith⟩

/-! ### Narrow-phase soundness: a triangle hit point is a convex combination
of the triangle vertices, hence inside any box enclosing them -/

/-- Standalone acceptance characterization of `intersect_triangle`, shared by
the refinement development. -/
theorem intersect_triangle_some_iff (r : Ray) (v0 v1 v2 : Vec3) (t' : ℚ) :
    r.intersect_triangle v0 v1 v2 = some t' ↔
      ¬(r.mtA v0 v1 v2 > -f32EPSILON ∧ r.mtA v0 v1 v2 < f32EPSILON) ∧
        0 ≤ r.mtU v0 v1 v2 ∧ r.mtU v0 v1 v2 ≤ 1 ∧ 0 ≤ r.mtV v0 v1 v2 ∧
        r.mtU v0 v1 v2 + r.mtV v0 v1 v2 ≤ 1 ∧
        f32EPSILON < r.mtT v0 v1 v2 ∧ t' = r.mtT v0 v1 v2 := by
  rw [intersect_triangle_eq]
  split_ifs with h1 h2 h3 h4
  · simp only [false_iff]
    rintro ⟨hA, _⟩
    exact hA h1
  · simp only [false_iff]
    rintro ⟨_, hu0, hu1, _⟩
    rcases h2 with h | h <;> linarith
  · simp only [false_iff]
    rintro ⟨_, _, _, hv0, huv, _⟩
    rcases h3 with h | h <;> linarith
  · simp only [Option.some.injEq]
    constructor
    · rintro rfl
      push_neg at h2 h3
      exact ⟨h1, h2.1, h2.2, h3.1, h3.2, h4, rfl⟩
    · rintro ⟨_, _, _, _, _, _, rfl⟩
      rfl
  · simp only [false_iff]
    rintro ⟨_, _, _, _, _, ht, rfl⟩
    exact h4 ht

/-- A successful triangle hit has `t` past epsilon, barycentric coordinates
in range, and its ray point is the corresponding convex combination of
the three vertices. -/
theorem tri_hit_convex (r : Ray) (v0 v1 v2 : Vec3) (t : ℚ)
    (h : r.intersect_triangle v0 v1 v2 = some t) :
    f32EPSILON < t ∧ 0 ≤ r.mtU v0 v1 v2 ∧ r.mtU v0 v1 v2 ≤ 1 ∧
      0 ≤ r.mtV v0 v1 v2 ∧ r.mtU v0 v1 v2 + r.mtV v0 v1 v2 ≤ 1 ∧
      r.pointAt t =
        ⟨(1 - r.mtU v0 v1 v2 - r.mtV v0 v1 v2) * v0.x +
            r.mtU v0 v1 v2 * v1.x + r.mtV v0 v1 v2 * v2.x,
          (1 - r.mtU v0 v1 v2 - r.mtV v0 v1 v2) * v0.y +
            r.mtU v0 v1 v2 * v1.y + r.mtV v0 v1 v2 * v2.y,
          (1 - r.mtU v0 v1 v2 - r.mtV v0 v1 v2) * v0.z +
            r.mtU v0 v1 v2 * v1.z + r.mtV v0 v1 v2 * v2.z⟩ := by
  obtain ⟨hA, hu0, hu1, hv0, huv, ht, rfl⟩ :=
    (intersect_triangle_some_iff r v0 v1 v2 t).mp h
  have heps : (0 : ℚ) < f32EPSILON := by norm_num [f32EPSILON]
  have ha : r.mtA v0 v1 v2 ≠ 0 := by
    intro h0
    rcases not_and_or.mp hA with hlt | hlt <;> push_neg at hlt <;>
      rw [h0] at hlt <;> linarith
  refine ⟨ht, hu0, hu1, hv0, huv, ?_⟩
  simp only [Ray.mtA] at ha
  simp only [Ray.pointAt, Ray.mtU, Ray.mtV, Ray.mtT, Ray.mtA, Vec3.add,
    Vec3.smul, Vec3.mk.injEq]
  simp only [Vec3.sub, Vec3.dot, Vec3.cross] at ha ⊢
  refine ⟨?_, ?_, ?_⟩ <;> field_simp <;> ring

/-- A convex combination of three points of a box stays in the box. -/
theorem convex_inBox (mn mx v0 v1 v2 : Vec3) (u v : ℚ)
    (hv0 : InBox mn mx v0) (hv1 : InBox mn mx v1) (hv2 : InBox mn mx v2)
    (hu0 : 0 ≤ u) (hvv : 0 ≤ v) (huv : u + v ≤ 1) :
    InBox mn mx
      ⟨(1 - u - v) * v0.x + u * v1.x + v * v2.x,
        (1 - u - v) * v0.y + u * v1.y + v * v2.y,
        (1 - u - v) * v0.z + u * v1.z + v * v2.z⟩ := by
  have hw : 0 ≤ 1 - u - v := by linarith
  obtain ⟨a1, a2, a3, a4, a5, a6⟩ := hv0
  obtain ⟨b1, b2, b3, b4, b5, b6⟩ := hv1
  obtain ⟨c1, c2, c3, c4, c5, c6⟩ := hv2
  refine ⟨?_, ?_, ?_, ?_, ?_, ?_⟩ <;> dsimp only
  · linarith [mul_le_mul_of_nonneg_left a1 hw,
      mul_le_mul_of_nonneg_left b1 hu0, mul_le_mul_of_nonneg_left c1 hvv]
  · linarith [mul_le_mul_of_nonneg_left a2 hw,
      mul_le_mul_of_nonneg_left b2 hu0, mul_le_mul_of_nonneg_left c2 hvv]
  · linarith [mul_le_mul_of_nonneg_left a3 hw,
      mul_le_mul_of_nonneg_left b3 hu0, mul_le_mul_of_nonneg_left c3 hvv]
  · linarith [mul_le_mul_of_nonneg_left a4 hw,
      mul_le_mul_of_nonneg_left b4 hu0, mul_le_mul_of_nonneg_left c4 hvv]
  · linarith [mul_le_mul_of_nonneg_left a5 hw,
      mul_le_mul_of_nonneg_left b5 hu0, mul_le_mul_of_nonneg_left c5 hvv]
  · linarith [mul_le_mul_of_nonneg_left a6 hw,
      mul_le_mul_of_nonneg_left b6 hu0, mul_le_mul_of_nonneg_left c6 hvv]

/-- When the broad-phase AABB test fails, no triangle with vertices inside
the box can be hit. -/
theorem tri_none_of_aabb_none (r : Ray) (mn mx v0 v1 v2 : Vec3)
    (hd : DirNonzero r.direction)
    (hnone : r.intersect_aabb mn mx = none)
    (hv0 : InBox mn mx v0) (hv1 : InBox mn mx v1) (hv2 : InBox mn mx v2) :
    r.intersect_triangle v0 v1 v2 = none := by
  by_contra hne
  obtain ⟨t, ht⟩ := Option.ne_none_iff_exists'.mp hne
  obtain ⟨hte, hu0, hu1, hvv, huv, hpt⟩ := tri_hit_convex r v0 v1 v2 t ht
  have heps : (0 : ℚ) < f32EPSILON := by norm_num [f32EPSILON]
  have hin : InBox mn mx (r.pointAt t) := by
    rw [hpt]
    exact convex_inBox mn mx v0 v1 v2 _ _ hv0 hv1 hv2 hu0 hvv huv
  obtain ⟨dist, hsome, -⟩ :=
    aabb_le_of_inBox r mn mx t hd (by linarith) hin
  rw [hnone] at hsome
  cases hsome

/-- When the broad phase returns entry distance `dist`, every triangle hit
with vertices inside the box is at distance at least `dist`. -/
theorem tri_ge_of_aabb_some (r : Ray) (mn mx v0 v1 v2 : Vec3) (dist t : ℚ)
    (hd : DirNonzero r.direction)
    (hsome : r.intersect_aabb mn mx = some dist)
    (hv0 : InBox mn mx v0) (hv1 : InBox mn mx v1) (hv2 : InBox mn mx v2)
    (ht : r.intersect_triangle v0 v1 v2 = some t) :
    dist ≤ t := by
  obtain ⟨hte, hu0, hu1, hvv, huv, hpt⟩ := tri_hit_convex r v0 v1 v2 t ht
  have heps : (0 : ℚ) < f32EPSILON := by norm_num [f32EPSILON]
  have hin : InBox mn mx (r.pointAt t) := by
    rw [hpt]
    exact convex_inBox mn mx v0 v1 v2 _ _ hv0 hv1 hv2 hu0 hvv huv
  obtain ⟨dist2, hsome2, hle⟩ :=
    aabb_le_of_inBox r mn mx t hd (by linarith) hin
  rw [hsome] at hsome2
  cases hsome2
  exact hle

/-! ### The broad phase is a sound filter for the narrow-phase folds -/

theorem triples_mem :
    ∀ (l : List ℕ) (t : ℕ × ℕ × ℕ), t ∈ triples l →
      t.1 ∈ l ∧ t.2.1 ∈ l ∧ t.2.2 ∈ l
  | i0 :: i1 :: i2 :: rest, t, h => by
    rw [triples] at h
    rcases List.mem_cons.mp h with rfl | h
    · simp
    · have := triples_mem rest t h
      exact ⟨List.mem_cons_of_mem _ (List.mem_cons_of_mem _
          (List.mem_cons_of_mem _ this.1)),
        List.mem_cons_of_mem _ (List.mem_cons_of_mem _
          (List.mem_cons_of_mem _ this.2.1)),
        List.mem_cons_of_mem _ (List.mem_cons_of_mem _
          (List.mem_cons_of_mem _ this.2.2))⟩
  | [], t, h => by simp [triples] at h
  | [_], t, h => by simp [triples] at h
  | [_, _], t, h => by simp [triples] at h

theorem getD_mem_of_lt {α : Type} (l : List α) (i : ℕ) (d : α)
    (h : i < l.length) : l.getD i d ∈ l := by
  rw [List.getD_eq_getElem?_getD, List.getElem?_eq_getElem h]
  simp only [Option.getD_some]
  exact List.getElem_mem h

/-- Under the enclosure hypotheses, every vertex fetched by the narrow phase
lies inside the model AABB. -/
theorem fetched_inBox (mn mx : Vec3) (meshes : List Mesh) (m : Mesh)
    (hm : MeshesEnclosed mn mx meshes) (hmem : m ∈ meshes) (idx : ℕ)
    (hidx : idx ∈ m.indices) :
    InBox mn mx ((m.vertices.getD idx dummyVertex).position) := by
  obtain ⟨hencl, hlen⟩ := hm m hmem
  exact hencl _ (getD_mem_of_lt m.vertices idx dummyVertex (hlen idx hidx))

theorem tryTriangle_none (r : Ray) (v0 v1 v2 : Vec3) (i : ℕ)
    (best : Option (ℕ × ℚ)) (h : r.intersect_triangle v0 v1 v2 = none) :
    tryTriangle r v0 v1 v2 i best = best := by
  unfold tryTriangle
  rw [h]

theorem tryTriangle_keep (r : Ray) (v0 v1 v2 : Vec3) (i j : ℕ) (c : ℚ)
    (h : ∀ t, r.intersect_triangle v0 v1 v2 = some t → ¬t < c) :
    tryTriangle r v0 v1 v2 i (some (j, c)) = some (j, c) := by
  unfold tryTriangle
  rcases hmt : r.intersect_triangle v0 v1 v2 with _ | t
  · rfl
  · dsimp only
    rw [if_neg (h t hmt)]

/-- When the broad phase misses the AABB, the narrow phase over one mesh is
the identity. -/
theorem narrowMesh_id_of_aabb_none (r : Ray) (mn mx : Vec3)
    (meshes : List Mesh) (m : Mesh) (i : ℕ) (best : Option (ℕ × ℚ))
    (hd : DirNonzero r.direction) (hnone : r.intersect_aabb mn mx = none)
    (hm : MeshesEnclosed mn mx meshes) (hmem : m ∈ meshes) :
    narrowMesh r m i best = best := by
  unfold narrowMesh
  have hall : ∀ tri ∈ triples m.indices, triTest r m tri = none := by
    intro tri htri
    obtain ⟨h0, h1, h2⟩ := triples_mem m.indices tri htri
    exact tri_none_of_aabb_none r mn mx _ _ _ hd hnone
      (fetched_inBox mn mx meshes m hm hmem _ h0)
      (fetched_inBox mn mx meshes m hm hmem _ h1)
      (fetched_inBox mn mx meshes m hm hmem _ h2)
  suffices h : ∀ (l : List (ℕ × ℕ × ℕ)) (b : Option (ℕ × ℚ)),
      (∀ tri ∈ l, triTest r m tri = none) →
      l.foldl (triStep r m i) b = b by
    exact h _ best hall
  intro l
  induction l with
  | nil => intro b _; rfl
  | cons tri tl ih =>
    intro b hall2
    rw [List.foldl_cons,
      show triStep r m i b tri = b from
        tryTriangle_none r _ _ _ i b (hall2 tri (List.mem_cons_self tri tl))]
    exact ih b (fun q hq => hall2 q (List.mem_cons_of_mem tri hq))

/-- When the broad-phase entry distance already exceeds the carried closest
hit, the narrow phase over one mesh keeps the accumulator unchanged. -/
theorem narrowMesh_keep_of_far (r : Ray) (mn mx : Vec3) (meshes : List Mesh)
    (m : Mesh) (i j : ℕ) (c dist : ℚ)
    (hd : DirNonzero r.direction)
    (hsome : r.intersect_aabb mn mx = some dist) (hfar : dist > c)
    (hm : MeshesEnclosed mn mx meshes) (hmem : m ∈ meshes) :
    narrowMesh r m i (some (j, c)) = some (j, c) := by
  unfold narrowMesh
  have hall : ∀ tri ∈ triples m.indices, ∀ t, triTest r m tri = some t →
      ¬t < c := by
    intro tri htri t ht
    obtain ⟨h0, h1, h2⟩ := triples_mem m.indices tri htri
    have := tri_ge_of_aabb_some r mn mx _ _ _ dist t hd hsome
      (fetched_inBox mn mx meshes m hm hmem _ h0)
      (fetched_inBox mn mx meshes m hm hmem _ h1)
      (fetched_inBox mn mx meshes m hm hmem _ h2) ht
    exact not_lt.mpr (by linarith)
  suffices h : ∀ (l : List (ℕ × ℕ × ℕ)),
      (∀ tri ∈ l, ∀ t, triTest r m tri = some t → ¬t < c) →
      l.foldl (triStep r m i) (some (j, c)) = some (j, c) by
    exact h _ hall
  intro l
  induction l with
  | nil => intro _; rfl
  | cons tri tl ih =>
    intro hall2
    rw [List.foldl_cons,
      show triStep r m i (some (j, c)) tri = some (j, c) from
        tryTriangle_keep r _ _ _ i j c
          (hall2 tri (List.mem_cons_self tri tl))]
    exact ih (fun q hq => hall2 q (List.mem_cons_of_mem tri hq))

theorem narrowMeshes_id_of_aabb_none (r : Ray) (mn mx : Vec3)
    (meshes : List Mesh) (i : ℕ) (best : Option (ℕ × ℚ))
    (hd : DirNonzero r.direction) (hnone : r.intersect_aabb mn mx = none)
    (hm : MeshesEnclosed mn mx meshes) :
    narrowMeshes r meshes i best = best := by
  unfold narrowMeshes
  suffices h : ∀ (ms : List Mesh) (b : Option (ℕ × ℚ)),
      (∀ m ∈ ms, m ∈ meshes) →
      ms.foldl (fun b m => narrowMesh r m i b) b = b by
    exact h meshes best (fun m hmm => hmm)
  intro ms
  induction ms with
  | nil => intro b _; rfl
  | cons m tl ih =>
    intro b hsub
    rw [List.foldl_cons,
      narrowMesh_id_of_aabb_none r mn mx meshes m i b hd hnone hm
        (hsub m (List.mem_cons_self m tl))]
    exact ih b (fun q hq => hsub q (List.mem_cons_of_mem m hq))

theorem narrowMeshes_keep_of_far (r : Ray) (mn mx : Vec3)
    (meshes : List Mesh) (i j : ℕ) (c dist : ℚ)
    (hd : DirNonzero r.direction)
    (hsome : r.intersect_aabb mn mx = some dist) (hfar : dist > c)
    (hm : MeshesEnclosed mn mx meshes) :
    narrowMeshes r meshes i (some (j, c)) = some (j, c) := by
  unfold narrowMeshes
  suffices h : ∀ ms : List Mesh, (∀ m ∈ ms, m ∈ meshes) →
      ms.foldl (fun b m => narrowMesh r m i b) (some (j, c)) = some (j, c) by
    exact h meshes (fun m hmm => hmm)
  intro ms
  induction ms with
  | nil => intro _; rfl
  | cons m tl ih =>
    intro hsub
    rw [List.foldl_cons,
      narrowMesh_keep_of_far r mn mx meshes m i j c dist hd hsome hfar hm
        (hsub m (List.mem_cons_self m tl))]
    exact ih (fun q hq => hsub q (List.mem_cons_of_mem m hq))

/-- Under the enclosure and nonzero-direction hypotheses the per-instance
loop body with its broad phase equals the pure narrow phase. -/
theorem instStep_eq_narrow (mn mx : Vec3) (meshes : List Mesh) (r : Ray)
    (best : Option (ℕ × ℚ)) (p : ℕ × Instance)
    (hd : DirNonzero (localRay p.2 r).direction)
    (hm : MeshesEnclosed mn mx meshes) :
    instStep mn mx meshes r best p =
      narrowMeshes (localRay p.2 r) meshes p.1 best := by
  unfold instStep
  dsimp only
  rcases haabb : (localRay p.2 r).intersect_aabb mn mx with _ | dist
  · exact (narrowMeshes_id_of_aabb_none _ mn mx meshes p.1 best hd haabb hm).symm
  · dsimp only
    split_ifs with hskip
    · unfold distGtClosest at hskip
      rcases best with _ | ⟨j, c⟩
      · cases hskip
      · simp only [decide_eq_true_eq] at hskip
        exact (narrowMeshes_keep_of_far _ mn mx meshes p.1 j c dist hd haabb
          hskip hm).symm
    · rfl

/-- C1 core equality: with the AABB enclosing all mesh vertices and
nonzero local ray directions, `get_hit_instance` equals the exhaustive
narrow-phase search. -/
theorem get_hit_eq_exhaustive (mn mx : Vec3) (meshes : List Mesh)
    (instances : List Instance) (r : Ray)
    (hm : MeshesEnclosed mn mx meshes)
    (hd : ∀ inst ∈ instances, DirNonzero (localRay inst r).direction) :
    get_hit_instance mn mx meshes instances r =
      exhaustiveHit meshes instances r := by
  unfold get_hit_instance exhaustiveHit
  have hd' : ∀ p ∈ instances.enum, DirNonzero (localRay p.2 r).direction := by
    intro p hp
    obtain ⟨hlt, heq⟩ :=
      List.getElem?_eq_some.mp (List.mk_mem_enum_iff_getElem?.mp (by exact hp))
    exact hd p.2 (heq ▸ List.getElem_mem hlt)
  suffices h : ∀ (l : List (ℕ × Instance)) (best : Option (ℕ × ℚ)),
      (∀ p ∈ l, DirNonzero (localRay p.2 r).direction) →
      l.foldl (instStep mn mx meshes r) best =
        l.foldl (fun best p => narrowMeshes (localRay p.2 r) meshes p.1 best)
          best by
    exact h instances.enum none hd'
  intro l
  induction l with
  | nil => intro best _; rfl
  | cons p tl ih =>
    intro best hdl
    rw [List.foldl_cons, List.foldl_cons,
      instStep_eq_narrow mn mx meshes r best p
        (hdl p (List.mem_cons_self p tl)) hm]
    exact ih _ (fun q hq => hdl q (List.mem_cons_of_mem p hq))

/-! ### The narrow-phase folds compute the minimum hit distance -/

theorem tryTriangle_spec (r : Ray) (v0 v1 v2 : Vec3) (i : ℕ)
    (best : Option (ℕ × ℚ)) :
    closestOf (tryTriangle r v0 v1 v2 i best) ≤ closestOf best ∧
      (∀ t, r.intersect_triangle v0 v1 v2 = some t →
        closestOf (tryTriangle r v0 v1 v2 i best) ≤ (t : WithTop ℚ)) ∧
      (tryTriangle r v0 v1 v2 i best = best ∨
        ∃ t, r.intersect_triangle v0 v1 v2 = some t ∧
          tryTriangle r v0 v1 v2 i best = some (i, t)) := by
  unfold tryTriangle
  rcases hmt : r.intersect_triangle v0 v1 v2 with _ | t
  · refine ⟨le_refl _, ?_, Or.inl rfl⟩
    intro t ht
    exact nomatch ht
  · rcases best with _ | ⟨j, c⟩
    · refine ⟨le_top, ?_, Or.inr ⟨t, rfl, rfl⟩⟩
      intro t' ht'
      cases Option.some.inj ht'
      exact le_refl _
    · dsimp only
      split_ifs with hlt
      · refine ⟨?_, ?_, Or.inr ⟨t, rfl, rfl⟩⟩
        · exact WithTop.coe_le_coe.mpr (le_of_lt hlt)
        · intro t' ht'
          cases Option.some.inj ht'
          exact le_refl _
      · refine ⟨le_refl _, ?_, Or.inl rfl⟩
        intro t' ht'
        cases Option.some.inj ht'
        exact WithTop.coe_le_coe.mpr (not_lt.mp hlt)

theorem triFold_spec (r : Ray) (m : Mesh) (i : ℕ) (l : List (ℕ × ℕ × ℕ)) :
    ∀ best : Option (ℕ × ℚ),
      closestOf (l.foldl (triStep r m i) best) ≤ closestOf best ∧
        (∀ tri ∈ l, ∀ t, triTest r m tri = some t →
          closestOf (l.foldl (triStep r m i) best) ≤ (t : WithTop ℚ)) ∧
        (l.foldl (triStep r m i) best = best ∨
          ∃ t, (∃ tri ∈ l, triTest r m tri = some t) ∧
            l.foldl (triStep r m i) best = some (i, t)) := by
  induction l with
  | nil =>
    intro best
    exact ⟨le_refl _, fun tri htri => absurd htri (List.not_mem_nil tri),
      Or.inl rfl⟩
  | cons tri tl ih =>
    intro best
    rw [List.foldl_cons]
    obtain ⟨s1, s2, s3⟩ := tryTriangle_spec r
      (m.vertices.getD tri.1 dummyVertex).position
      (m.vertices.getD tri.2.1 dummyVertex).position
      (m.vertices.getD tri.2.2 dummyVertex).position i best
    obtain ⟨i1, i2, i3⟩ := ih (triStep r m i best tri)
    refine ⟨le_trans i1 s1, ?_, ?_⟩
    · intro tri' htri' t ht
      rcases List.mem_cons.mp htri' with rfl | htri'
      · exact le_trans i1 (s2 t ht)
      · exact i2 tri' htri' t ht
    · rcases i3 with hres | ⟨t, ⟨tri', htri', ht⟩, hres⟩
      · rw [hres]
        rcases s3 with hs | ⟨t, ht, hs⟩
        · exact Or.inl hs
        · exact Or.inr ⟨t, ⟨tri, List.mem_cons_self tri tl, ht⟩, hs⟩
      · exact Or.inr ⟨t, ⟨tri', List.mem_cons_of_mem tri htri', ht⟩, hres⟩

theorem narrowMesh_spec (r : Ray) (m : Mesh) (i : ℕ)
    (best : Option (ℕ × ℚ)) :
    closestOf (narrowMesh r m i best) ≤ closestOf best ∧
      (∀ t, MeshHit r m t →
        closestOf (narrowMesh r m i best) ≤ (t : WithTop ℚ)) ∧
      (narrowMesh r m i best = best ∨
        ∃ t, MeshHit r m t ∧ narrowMesh r m i best = some (i, t)) := by
  obtain ⟨s1, s2, s3⟩ := triFold_spec r m i (triples m.indices) best
  refine ⟨s1, ?_, ?_⟩
  · rintro t ⟨tri, htri, ht⟩
    exact s2 tri htri t ht
  · rcases s3 with hs | ⟨t, ⟨tri, htri, ht⟩, hs⟩
    · exact Or.inl hs
    · exact Or.inr ⟨t, ⟨tri, htri, ht⟩, hs⟩

theorem meshesFold_spec (r : Ray) (i : ℕ) (ms : List Mesh) :
    ∀ best : Option (ℕ × ℚ),
      closestOf (narrowMeshes r ms i best) ≤ closestOf best ∧
        (∀ t, MeshesHit r ms t →
          closestOf (narrowMeshes r ms i best) ≤ (t : WithTop ℚ)) ∧
        (narrowMeshes r ms i best = best ∨
          ∃ t, MeshesHit r ms t ∧ narrowMeshes r ms i best = some (i, t)) := by
  induction ms with
  | nil =>
    intro best
    exact ⟨le_refl _, fun t ht => absurd ht.choose_spec.1
      (List.not_mem_nil ht.choose), Or.inl rfl⟩
  | cons m tl ih =>
    intro best
    have hcons : narrowMeshes r (m :: tl) i best =
        narrowMeshes r tl i (narrowMesh r m i best) := by
      unfold narrowMeshes
      rw [List.foldl_cons]
    rw [hcons]
    obtain ⟨s1, s2, s3⟩ := narrowMesh_spec r m i best
    obtain ⟨i1, i2, i3⟩ := ih (narrowMesh r m i best)
    refine ⟨le_trans i1 s1, ?_, ?_⟩
    · rintro t ⟨m', hm', hmh⟩
      rcases List.mem_cons.mp hm' with rfl | hm'
      · exact le_trans i1 (s2 t hmh)
      · exact i2 t ⟨m', hm', hmh⟩
    · rcases i3 with hres | ⟨t, ⟨m', hm', hmh⟩, hres⟩
      · rw [hres]
        rcases s3 with hs | ⟨t, ht, hs⟩
        · exact Or.inl hs
        · exact Or.inr ⟨t, ⟨m, List.mem_cons_self m tl, ht⟩, hs⟩
      · exact Or.inr ⟨t, ⟨m', List.mem_cons_of_mem m hm', hmh⟩, hres⟩

theorem enumFold_spec (meshes : List Mesh) (r : Ray)
    (l : List (ℕ × Instance)) :
    ∀ best : Option (ℕ × ℚ),
      closestOf (l.foldl
          (fun best p => narrowMeshes (localRay p.2 r) meshes p.1 best)
          best) ≤ closestOf best ∧
        (∀ j t, EnumHit meshes r l j t →
          closestOf (l.foldl
            (fun best p => narrowMeshes (localRay p.2 r) meshes p.1 best)
            best) ≤ (t : WithTop ℚ)) ∧
        (l.foldl (fun best p => narrowMeshes (localRay p.2 r) meshes p.1 best)
            best = best ∨
          ∃ p ∈ l, ∃ t, MeshesHit (localRay p.2 r) meshes t ∧
            l.foldl (fun best p => narrowMeshes (localRay p.2 r) meshes p.1 best)
              best = some (p.1, t)) := by
  induction l with
  | nil =>
    intro best
    refine ⟨le_refl _, ?_, Or.inl rfl⟩
    rintro j t ⟨p, hp, -⟩
    exact absurd hp (List.not_mem_nil p)
  | cons p tl ih =>
    intro best
    rw [List.foldl_cons]
    obtain ⟨s1, s2, s3⟩ := meshesFold_spec (localRay p.2 r) p.1 meshes best
    obtain ⟨i1, i2, i3⟩ := ih (narrowMeshes (localRay p.2 r) meshes p.1 best)
    refine ⟨le_trans i1 s1, ?_, ?_⟩
    · rintro j t ⟨q, hq, hj, hmh⟩
      rcases List.mem_cons.mp hq with rfl | hq
      · exact le_trans i1 (s2 t hmh)
      · exact i2 j t ⟨q, hq, hj, hmh⟩
    · rcases i3 with hres | ⟨q, hq, t, hmh, hres⟩
      · rw [hres]
        rcases s3 with hs | ⟨t, ht, hs⟩
        · exact Or.inl hs
        · exact Or.inr ⟨p, List.mem_cons_self p tl, t, ht, hs⟩
      · exact Or.inr ⟨q, List.mem_cons_of_mem p hq, t, hmh, hres⟩

theorem isHit_iff_enumHit (meshes : List Mesh) (instances : List Instance)
    (r : Ray) (j : ℕ) (t : ℚ) :
    IsHit meshes instances r j t ↔ EnumHit meshes r instances.enum j t := by
  unfold IsHit EnumHit
  constructor
  · rintro ⟨inst, hget, hmh⟩
    refine ⟨(j, inst), ?_, rfl, hmh⟩
    exact List.mk_mem_enum_iff_getElem?.mpr
      (by simpa [List.get?_eq_getElem?] using hget)
  · rintro ⟨p, hp, rfl, hmh⟩
    refine ⟨p.2, ?_, hmh⟩
    rw [List.get?_eq_getElem?]
    exact List.mk_mem_enum_iff_getElem?.mp (by exact hp)

/-- The exhaustive search is sound and minimal: a returned pair is a
narrow-phase hit at the globally minimal distance, and a `none` result
means no triangle of any instance is hit. -/
theorem exhaustive_spec (meshes : List Mesh) (instances : List Instance)
    (r : Ray) :
    (∀ i d, exhaustiveHit meshes instances r = some (i, d) →
      IsHit meshes instances r i d ∧
        ∀ j t, IsHit meshes instances r j t → d ≤ t) ∧
      (exhaustiveHit meshes instances r = none →
        ∀ j t, ¬IsHit meshes instances r j t) := by
  obtain ⟨s1, s2, s3⟩ := enumFold_spec meshes r instances.enum none
  constructor
  · intro i d hres
    unfold exhaustiveHit at hres
    constructor
    · rcases s3 with hs | ⟨p, hp, t, hmh, hs⟩
      · rw [hres] at hs
        cases hs
      · rw [hres] at hs
        obtain ⟨rfl, rfl⟩ : p.1 = i ∧ t = d := by
          simpa [Prod.ext_iff] using hs.symm
        refine (isHit_iff_enumHit meshes instances r p.1 t).mpr ?_
        exact ⟨p, hp, rfl, hmh⟩
    · intro j t hjt
      have := s2 j t ((isHit_iff_enumHit meshes instances r j t).mp hjt)
      rw [hres] at this
      exact WithTop.coe_le_coe.mp this
  · intro hres j t hjt
    have := s2 j t ((isHit_iff_enumHit meshes instances r j t).mp hjt)
    unfold exhaustiveHit at hres
    rw [hres] at this
    simp only [closestOf] at this
    exact WithTop.coe_ne_top (top_le_iff.mp this)

theorem isHit_singleton (meshes : List Mesh) (x : Instance) (r : Ray)
    (j : ℕ) (t : ℚ) :
    IsHit meshes [x] r j t ↔ j = 0 ∧ MeshesHit (localRay x r) meshes t := by
  unfold IsHit
  constructor
  · rintro ⟨inst, hget, hmh⟩
    rcases j with _ | j
    · cases Option.some.inj hget
      exact ⟨rfl, hmh⟩
    · rcases j with _ | j <;> cases hget
  · rintro ⟨rfl, hmh⟩
    exact ⟨x, rfl, hmh⟩

theorem isHit_pair (meshes : List Mesh) (x y : Instance) (r : Ray)
    (j : ℕ) (t : ℚ) :
    IsHit meshes [x, y] r j t ↔
      (j = 0 ∧ MeshesHit (localRay x r) meshes t) ∨
        (j = 1 ∧ MeshesHit (localRay y r) meshes t) := by
  unfold IsHit
  constructor
  · rintro ⟨inst, hget, hmh⟩
    rcases j with _ | j
    · cases Option.some.inj hget
      exact Or.inl ⟨rfl, hmh⟩
    · rcases j with _ | j
      · cases Option.some.inj hget
        exact Or.inr ⟨rfl, hmh⟩
      · cases hget
  · rintro (⟨rfl, hmh⟩ | ⟨rfl, hmh⟩)
    · exact ⟨x, rfl, hmh⟩
    · exact ⟨y, rfl, hmh⟩

/-- C1: with the model AABB enclosing every mesh vertex (the load-time
invariant) and the local ray directions nonzero, `get_hit_instance`
returns exactly the result of the exhaustive narrow-phase search: it
equals the broad-phase-free fold, a returned pair is a triangle hit of an
existing instance at the globally minimal positive distance, `none` means
no triangle anywhere is hit, and for two instances whose closest hits lie
at different distances the nearer instance is returned under either
iteration order — the AABB broad phase with its early-out skip never
changes the result. -/
theorem get_hit_instance_refinement (mn mx : Vec3) (meshes : List Mesh)
    (instances : List Instance) (r : Ray)
    (hm : MeshesEnclosed mn mx meshes)
    (hd : ∀ inst ∈ instances, DirNonzero (localRay inst r).direction) :
    get_hit_instance mn mx meshes instances r =
        exhaustiveHit meshes instances r ∧
      (∀ i d, get_hit_instance mn mx meshes instances r = some (i, d) →
        IsHit meshes instances r i d ∧
          ∀ j t, IsHit meshes instances r j t → d ≤ t) ∧
      (get_hit_instance mn mx meshes instances r = none →
        ∀ j t, ¬IsHit meshes instances r j t) ∧
      (∀ a b da db,
        exhaustiveHit meshes [a] r = some (0, da) →
        exhaustiveHit meshes [b] r = some (0, db) →
        da < db →
        DirNonzero (localRay a r).direction →
        DirNonzero (localRay b r).direction →
        get_hit_instance mn mx meshes [a, b] r = some (0, da) ∧
          get_hit_instance mn mx meshes [b, a] r = some (1, da)) := by
  have heq := get_hit_eq_exhaustive mn mx meshes instances r hm hd
  refine ⟨heq, ?_, ?_, ?_⟩
  · intro i d h
    exact (exhaustive_spec meshes instances r).1 i d (heq ▸ h)
  · intro h
    exact (exhaustive_spec meshes instances r).2 (heq ▸ h)
  · intro a b da db hda hdb hlt hdira hdirb
    obtain ⟨hitA', minA'⟩ := (exhaustive_spec meshes [a] r).1 0 da hda
    obtain ⟨hitB', minB'⟩ := (exhaustive_spec meshes [b] r).1 0 db hdb
    have hitA : MeshesHit (localRay a r) meshes da :=
      ((isHit_singleton meshes a r 0 da).mp hitA').2
    have hitB : MeshesHit (localRay b r) meshes db :=
      ((isHit_singleton meshes b r 0 db).mp hitB').2
    have minA : ∀ t, MeshesHit (localRay a r) meshes t → da ≤ t := fun t ht =>
      minA' 0 t ((isHit_singleton meshes a r 0 t).mpr ⟨rfl, ht⟩)
    have minB : ∀ t, MeshesHit (localRay b r) meshes t → db ≤ t := fun t ht =>
      minB' 0 t ((isHit_singleton meshes b r 0 t).mpr ⟨rfl, ht⟩)
    constructor
    · have heq2 : get_hit_instance mn mx meshes [a, b] r =
          exhaustiveHit meshes [a, b] r := by
        refine get_hit_eq_exhaustive mn mx meshes [a, b] r hm ?_
        intro inst hinst
        rcases List.mem_cons.mp hinst with rfl | hinst
        · exact hdira
        · rcases List.mem_cons.mp hinst with rfl | hinst
          · exact hdirb
          · exact absurd hinst (List.not_mem_nil inst)
      rw [heq2]
      rcases hres : exhaustiveHit meshes [a, b] r with _ | ⟨i, d⟩
      · exact absurd ((isHit_pair meshes a b r 0 da).mpr (Or.inl ⟨rfl, hitA⟩))
          ((exhaustive_spec meshes [a, b] r).2 hres 0 da)
      · obtain ⟨hhit, hmin⟩ := (exhaustive_spec meshes [a, b] r).1 i d hres
        have hdda : d ≤ da :=
          hmin 0 da ((isHit_pair meshes a b r 0 da).mpr (Or.inl ⟨rfl, hitA⟩))
        rcases (isHit_pair meshes a b r i d).mp hhit with
          ⟨rfl, hma⟩ | ⟨rfl, hmb⟩
        · rw [le_antisymm hdda (minA d hma)]
        · exact absurd hlt (not_lt.mpr (le_trans (minB d hmb) hdda))
    · have heq2 : get_hit_instance mn mx meshes [b, a] r =
          exhaustiveHit meshes [b, a] r := by
        refine get_hit_eq_exhaustive mn mx meshes [b, a] r hm ?_
        intro inst hinst
        rcases List.mem_cons.mp hinst with rfl | hinst
        · exact hdirb
        · rcases List.mem_cons.mp hinst with rfl | hinst
          · exact hdira
          · exact absurd hinst (List.not_mem_nil inst)
      rw [heq2]
      rcases hres : exhaustiveHit meshes [b, a] r with _ | ⟨i, d⟩
      · exact absurd ((isHit_pair meshes b a r 1 da).mpr (Or.inr ⟨rfl, hitA⟩))
          ((exhaustive_spec meshes [b, a] r).2 hres 1 da)
      · obtain ⟨hhit, hmin⟩ := (exhaustive_spec meshes [b, a] r).1 i d hres
        have hdda : d ≤ da :=
          hmin 1 da ((isHit_pair meshes b a r 1 da).mpr (Or.inr ⟨rfl, hitA⟩))
        rcases (isHit_pair meshes b a r i d).mp hhit with
          ⟨rfl, hmb⟩ | ⟨rfl, hma⟩
        · exact absurd hlt (not_lt.mpr (le_trans (minB d hmb) hdda))
        · rw [le_antisymm hdda (minA d hma)]

/-- C1 witness: one triangle mesh, two unrotated instances at distances 1
and 4 along the ray; either iteration order returns the nearer hit. -/
theorem get_hit_instance_refinement_witness :
    get_hit_instance ⟨0, 0, 0⟩ ⟨1, 1, 0⟩
        [⟨"tri",
          [⟨⟨0, 0, 0⟩, ⟨1, 1, 1⟩, (0, 0), ⟨0, 1, 0⟩⟩,
           ⟨⟨1, 0, 0⟩, ⟨1, 1, 1⟩, (0, 0), ⟨0, 1, 0⟩⟩,
           ⟨⟨0, 1, 0⟩, ⟨1, 1, 1⟩, (0, 0), ⟨0, 1, 0⟩⟩], [0, 1, 2], 0⟩]
        [⟨⟨0, 0, 0⟩, ⟨0, 0, 0, 1⟩⟩, ⟨⟨0, 0, -3⟩, ⟨0, 0, 0, 1⟩⟩]
        (Ray.mk ⟨0, 0, 1⟩ ⟨1/8, 1/8, -1⟩) = some (0, 1) ∧
      get_hit_instance ⟨0, 0, 0⟩ ⟨1, 1, 0⟩
        [⟨"tri",
          [⟨⟨0, 0, 0⟩, ⟨1, 1, 1⟩, (0, 0), ⟨0, 1, 0⟩⟩,
           ⟨⟨1, 0, 0⟩, ⟨1, 1, 1⟩, (0, 0), ⟨0, 1, 0⟩⟩,
           ⟨⟨0, 1, 0⟩, ⟨1, 1, 1⟩, (0, 0), ⟨0, 1, 0⟩⟩], [0, 1, 2], 0⟩]
        [⟨⟨0, 0, -3⟩, ⟨0, 0, 0, 1⟩⟩, ⟨⟨0, 0, 0⟩, ⟨0, 0, 0, 1⟩⟩]
        (Ray.mk ⟨0, 0, 1⟩ ⟨1/8, 1/8, -1⟩) = some (1, 1) := by
  have hlr0 : localRay ⟨⟨0, 0, 0⟩, ⟨0, 0, 0, 1⟩⟩
      (Ray.mk ⟨0, 0, 1⟩ ⟨1/8, 1/8, -1⟩) =
      Ray.mk ⟨0, 0, 1⟩ ⟨1/8, 1/8, -1⟩ := by
    norm_num [localRay, Quat.inverse, Quat.conjugate, Quat.rotate, Vec3.sub,
      Vec3.dot, Vec3.cross, Vec3.smul, Vec3.add, Ray.mk.injEq, Vec3.mk.injEq]
  have hlr1 : localRay ⟨⟨0, 0, -3⟩, ⟨0, 0, 0, 1⟩⟩
      (Ray.mk ⟨0, 0, 1⟩ ⟨1/8, 1/8, -1⟩) =
      Ray.mk ⟨0, 0, 4⟩ ⟨1/8, 1/8, -1⟩ := by
    norm_num [localRay, Quat.inverse, Quat.conjugate, Quat.rotate, Vec3.sub,
      Vec3.dot, Vec3.cross, Vec3.smul, Vec3.add, Ray.mk.injEq, Vec3.mk.injEq]
  have hTa : (Ray.mk ⟨0, 0, 1⟩ ⟨1/8, 1/8, -1⟩).intersect_triangle
      ⟨0, 0, 0⟩ ⟨1, 0, 0⟩ ⟨0, 1, 0⟩ = some 1 := by
    rw [intersect_triangle_eq]
    norm_num [Ray.mtA, Ray.mtU, Ray.mtV, Ray.mtT, Vec3.sub, Vec3.dot,
      Vec3.cross, f32EPSILON]
  have hTb : (Ray.mk ⟨0, 0, 4⟩ ⟨1/8, 1/8, -1⟩).intersect_triangle
      ⟨0, 0, 0⟩ ⟨1, 0, 0⟩ ⟨0, 1, 0⟩ = some 4 := by
    rw [intersect_triangle_eq]
    norm_num [Ray.mtA, Ray.mtU, Ray.mtV, Ray.mtT, Vec3.sub, Vec3.dot,
      Vec3.cross, f32EPSILON]
  have hexp : ∀ (inst : Instance) (t : ℚ),
      (localRay inst (Ray.mk ⟨0, 0, 1⟩ ⟨1/8, 1/8, -1⟩)).intersect_triangle
          ⟨0, 0, 0⟩ ⟨1, 0, 0⟩ ⟨0, 1, 0⟩ = some t →
      exhaustiveHit
        [⟨"tri",
          [⟨⟨0, 0, 0⟩, ⟨1, 1, 1⟩, (0, 0), ⟨0, 1, 0⟩⟩,
           ⟨⟨1, 0, 0⟩, ⟨1, 1, 1⟩, (0, 0), ⟨0, 1, 0⟩⟩,
           ⟨⟨0, 1, 0⟩, ⟨1, 1, 1⟩, (0, 0), ⟨0, 1, 0⟩⟩], [0, 1, 2], 0⟩]
        [inst] (Ray.mk ⟨0, 0, 1⟩ ⟨1/8, 1/8, -1⟩) = some (0, t) := by
    intro inst t ht
    have hred : exhaustiveHit
        [⟨"tri",
          [⟨⟨0, 0, 0⟩, ⟨1, 1, 1⟩, (0, 0), ⟨0, 1, 0⟩⟩,
           ⟨⟨1, 0, 0⟩, ⟨1, 1, 1⟩, (0, 0), ⟨0, 1, 0⟩⟩,
           ⟨⟨0, 1, 0⟩, ⟨1, 1, 1⟩, (0, 0), ⟨0, 1, 0⟩⟩], [0, 1, 2], 0⟩]
        [inst] (Ray.mk ⟨0, 0, 1⟩ ⟨1/8, 1/8, -1⟩) =
        tryTriangle (localRay inst (Ray.mk ⟨0, 0, 1⟩ ⟨1/8, 1/8, -1⟩))
          ⟨0, 0, 0⟩ ⟨1, 0, 0⟩ ⟨0, 1, 0⟩ 0 none := rfl
    rw [hred]
    unfold tryTriangle
    rw [ht]
  have hm : MeshesEnclosed ⟨0, 0, 0⟩ ⟨1, 1, 0⟩
      [⟨"tri",
        [⟨⟨0, 0, 0⟩, ⟨1, 1, 1⟩, (0, 0), ⟨0, 1, 0⟩⟩,
         ⟨⟨1, 0, 0⟩, ⟨1, 1, 1⟩, (0, 0), ⟨0, 1, 0⟩⟩,
         ⟨⟨0, 1, 0⟩, ⟨1, 1, 1⟩, (0, 0), ⟨0, 1, 0⟩⟩], [0, 1, 2], 0⟩] := by
    intro m hmem
    rw [List.mem_singleton] at hmem
    subst hmem
    constructor
    · intro v hv
      simp only [List.mem_cons, List.not_mem_nil, or_false] at hv
      rcases hv with rfl | rfl | rfl <;> norm_num [InBox]
    · intro idx hidx
      simp only [List.mem_cons, List.not_mem_nil, or_false] at hidx
      rcases hidx with rfl | rfl | rfl <;> norm_num
  have hd : ∀ inst ∈
      [(⟨⟨0, 0, 0⟩, ⟨0, 0, 0, 1⟩⟩ : Instance), ⟨⟨0, 0, -3⟩, ⟨0, 0, 0, 1⟩⟩],
      DirNonzero (localRay inst (Ray.mk ⟨0, 0, 1⟩ ⟨1/8, 1/8, -1⟩)).direction := by
    intro inst hinst
    rcases List.mem_cons.mp hinst with rfl | hinst
    · rw [hlr0]
      norm_num [DirNonzero]
    · rcases List.mem_cons.mp hinst with rfl | hinst
      · rw [hlr1]
        norm_num [DirNonzero]
      · exact absurd hinst (List.not_mem_nil inst)
  exact (get_hit_instance_refinement ⟨0, 0, 0⟩ ⟨1, 1, 0⟩ _ _ _ hm hd).2.2.2
    ⟨⟨0, 0, 0⟩, ⟨0, 0, 0, 1⟩⟩ ⟨⟨0, 0, -3⟩, ⟨0, 0, 0, 1⟩⟩ 1 4
    (hexp _ 1 (by rw [hlr0]; exact hTa))
    (hexp _ 4 (by rw [hlr1]; exact hTb))
    (by norm_num)
    (by rw [hlr0]; norm_num [DirNonzero])
    (by rw [hlr1]; norm_num [DirNonzero])

end Orengine
